import Mathlib

/-!
Shallow embedding of `src/exact_extract.cpp` (the zonal-statistics engine of
exactextractr): `CPP_stats` and `CPP_exact_extract`.

Conventions of the embedding:
* machine doubles are modelled as `ℚ`; the NA/NaN missing-value sentinel is
  modelled by `Option ℚ` with `none` standing for the sentinel;
* fallible code (`Rcpp::stop`) is modelled with `Except RErr`, one error
  constructor per stop site of the source;
* the external collaborators (GEOS coverage computation, raster I/O) are
  modelled as pure functions supplied as inputs, and every invocation of a
  collaborator is recorded in an explicit `Event` trace;
* grid cells of the reconciled (common) grid are identified by a `ℕ` index;
  the output of `subdivide(cropped_grid, max_cells_in_memory)` is supplied
  as a `List (List ℕ)` of windows.

Components that belong to the vendored exactextract library (grid.h,
raster_stats.h, raster_utils.h) are not part of the given source; they are
modelled from the spec and carry a `Modelled from the spec:` note.
-/

namespace ExactExtract

/-- Axis-aligned bounding box with rational coordinates.  Modelled from the
spec: box utilities (`geos_get_box`, `Box`) live in the external exactextract
library, outside the given source file. -/
structure Box where
  xmin : ℚ
  ymin : ℚ
  xmax : ℚ
  ymax : ℚ
deriving DecidableEq

/-- Modelled from the spec: `Box::intersects` of the exactextract library;
two boxes intersect unless one lies strictly beyond the other on some axis
(§4.1: a crop "may be empty (no cells) if disjoint"). -/
def Box.intersects (a b : Box) : Bool :=
  !(decide (b.ymin > a.ymax) || decide (b.ymax < a.ymin) ||
    decide (b.xmin > a.xmax) || decide (b.xmax < a.xmin))

/-- Grid data model of §3: an extent plus cell sizes `dx`, `dy`. -/
structure Grid where
  extent : Box
  dx : ℚ
  dy : ℚ
deriving DecidableEq

/-- Intersection of two extents (used by grid reconciliation, §3). -/
def Box.inter (a b : Box) : Box :=
  ⟨max a.xmin b.xmin, max a.ymin b.ymin, min a.xmax b.xmax, min a.ymax b.ymax⟩

/-- Modelled from the spec: `Grid::common_grid` of the exactextract library
(§3): cell size equal to the finer (smaller) of the two input cell sizes,
extent equal to the intersection of both extents. -/
def Grid.common_grid (a b : Grid) : Grid :=
  ⟨a.extent.inter b.extent, min a.dx b.dx, min a.dy b.dy⟩

/-- A raster source as seen through the `S4RasterSource` interface: its grid,
its layer count, and per-layer cell values (`read_box`, already including the
declared default fill value for out-of-extent reads). -/
structure RastSrc where
  grid : Grid
  nlayers : ℕ
  vals : ℕ → ℕ → ℚ

/-- The inputs of `CPP_stats`, with the external collaborators (geometry
bounding box, coverage-fraction provider) replaced by their pure models. -/
structure StatsBase where
  rast : RastSrc
  weights : Option RastSrc
  bbox : Box
  cov : ℕ → ℚ
  stats : List String
  maxCells : ℤ
  quantiles : Option (List ℚ)

/-- One error constructor per `Rcpp::stop` site of `CPP_stats`. -/
inductive RErr where
  | invalidMaxCells
  | incompatibleLayers
  | countSumDisaggregated
  | quantilesNotSpecified
  | unknownStat (s : String)
deriving DecidableEq

/-- Trace of invocations of the external collaborators: one `coverage` event
per `raster_cell_intersection` call, one `readValues`/`readWeights` event per
`read_box` call on the value/weight source. -/
inductive Event where
  | coverage (cells : List ℕ)
  | readValues (layer : ℕ)
  | readWeights (layer : ℕ)
deriving DecidableEq

/-- Modelled from the spec: `requires_stored_values` of raster_utils.h (not in
the given source).  Per §4.4, exactly the distribution-dependent statistics
(mode, minority, variety, quantile, median — and majority, a synonym of mode)
require the accumulator to retain the full value→weight mapping. -/
def requires_stored_values (stat : String) : Bool :=
  stat = "mode" || stat = "majority" || stat = "minority" ||
  stat = "variety" || stat = "median" || stat = "quantile"

/-- Running minimum used by the accumulator. -/
def optMin (o : Option ℚ) (v : ℚ) : Option ℚ :=
  some (match o with | none => v | some m => min m v)

/-- Running maximum used by the accumulator. -/
def optMax (o : Option ℚ) (v : ℚ) : Option ℚ :=
  some (match o with | none => v | some m => max m v)

/-- Modelled from the spec: the `RasterStats` accumulator state of §3 —
coverage-weighted count, sum, sum of squares, sum of weights, weighted sum,
min, max, and the value→coverage-weight data (kept here as the multiset of
`(value, coverage)` contributions of the covered cells; the spec's mapping is
its per-value aggregation).  The memory optimisation of conditionally not
materialising the multiset is a resource concern with no effect on values, so
the model always carries it. -/
structure Accum where
  count : ℚ
  sum : ℚ
  sumsq : ℚ
  wsum : ℚ
  wvsum : ℚ
  minv : Option ℚ
  maxv : Option ℚ
  vals : Multiset (ℚ × ℚ)
deriving DecidableEq

/-- The accumulator created before any window is processed. -/
def Accum.init : Accum := ⟨0, 0, 0, 0, 0, none, none, 0⟩

/-- Modelled from the spec: one `RasterStats::process` step for a single cell
with coverage fraction `c`, value `v` and weight `w` (§4.4): cells with
coverage 0 are not covered and contribute nothing. -/
def Accum.update (a : Accum) (c v w : ℚ) : Accum :=
  if 0 < c then
    { count := a.count + c
      sum := a.sum + v * c
      sumsq := a.sumsq + v * v * c
      wsum := a.wsum + c * w
      wvsum := a.wvsum + v * c * w
      minv := optMin a.minv v
      maxv := optMax a.maxv v
      vals := (v, c) ::ₘ a.vals }
  else a

/-- Mean (§4.4): `sum / count`, missing when no cell was covered. -/
def Accum.meanStat (a : Accum) : Option ℚ :=
  if a.count = 0 then none else some (a.sum / a.count)

/-- Sum (§4.4): `Σ (v·c)`; missing when no cell was covered (§4.4: every
statistic except count and variety returns the sentinel at `count = 0`). -/
def Accum.sumStat (a : Accum) : Option ℚ :=
  if a.count = 0 then none else some a.sum

/-- Count (§4.4): `Σ c`, well-defined (0) even with no covered cell. -/
def Accum.countStat (a : Accum) : Option ℚ := some a.count

/-- The distinct covered values, in increasing order. -/
def Accum.distinct (a : Accum) : List ℚ :=
  (a.vals.map Prod.fst).toFinset.sort (· ≤ ·)

/-- Cumulative coverage-weight of one distinct value. -/
def Accum.weightOf (a : Accum) (v : ℚ) : ℚ :=
  ((a.vals.filter (fun p => p.1 = v)).map Prod.snd).sum

/-- Total coverage-weight of values not exceeding `v`. -/
def Accum.cumWeight (a : Accum) (v : ℚ) : ℚ :=
  ((a.vals.filter (fun p => p.1 ≤ v)).map Prod.snd).sum

/-- Total coverage-weight over all covered cells. -/
def Accum.totalWeight (a : Accum) : ℚ :=
  (a.vals.map Prod.snd).sum

/-- Mode / majority (§4.4): a value with maximum cumulative coverage-weight;
missing when no cell was covered. -/
def Accum.modeStat (a : Accum) : Option ℚ :=
  a.distinct.foldl (fun best v =>
    match best with
    | none => some v
    | some m => if a.weightOf m < a.weightOf v then some v else best) none

/-- Minority (§4.4): a value with minimum cumulative coverage-weight; missing
when no cell was covered. -/
def Accum.minorityStat (a : Accum) : Option ℚ :=
  a.distinct.foldl (fun best v =>
    match best with
    | none => some v
    | some m => if a.weightOf v < a.weightOf m then some v else best) none

/-- Variety (§4.4): the number of distinct covered values, well-defined (0)
even with no covered cell. -/
def Accum.varietyStat (a : Accum) : Option ℚ :=
  some ((a.vals.map Prod.fst).toFinset.card : ℚ)

/-- Coverage-weighted quantile (§4.4): walk the distinct values in increasing
order until the cumulative coverage-weight reaches `q` of the total; missing
when no cell was covered.  The spec leaves the interpolation rule open (§9);
the model uses the first bracketing value (nearest rank). -/
def Accum.quantileStat (a : Accum) (q : ℚ) : Option ℚ :=
  match a.distinct.find? (fun v => decide (q * a.totalWeight ≤ a.cumWeight v)) with
  | some v => some v
  | none => a.distinct.getLast?

/-- Rational stand-in for the floating square root: exact on perfect squares
of naturals over naturals; only the missing-at-zero-coverage behaviour of
`stdev`/`coefficient_of_variation` is relied upon by the theorems below. -/
def ratSqrt (x : ℚ) : ℚ :=
  (Nat.sqrt x.num.toNat : ℚ) / (Nat.sqrt x.den : ℚ)

/-- Population coverage-weighted variance (§4.4):
`Σ(c·(v-mean)²)/count = sumsq/count - mean²`; missing at zero coverage. -/
def Accum.varianceStat (a : Accum) : Option ℚ :=
  if a.count = 0 then none else some (a.sumsq / a.count - (a.sum / a.count) ^ 2)

/-- Standard deviation (§4.4): square root of the variance. -/
def Accum.stdevStat (a : Accum) : Option ℚ :=
  a.varianceStat.map ratSqrt

/-- Coefficient of variation (§4.4): `stdev / mean`; missing at zero
coverage. -/
def Accum.cvStat (a : Accum) : Option ℚ :=
  if a.count = 0 then none
  else some (ratSqrt (a.sumsq / a.count - (a.sum / a.count) ^ 2) / (a.sum / a.count))

/-- Weighted mean (§4.4): `Σ(v·c·w) / Σ(c·w)`; missing at zero coverage. -/
def Accum.weightedMeanStat (a : Accum) : Option ℚ :=
  if a.count = 0 then none else some (a.wvsum / a.wsum)

/-- Weighted sum (§4.4): `Σ(v·c·w)`; missing at zero coverage. -/
def Accum.weightedSumStat (a : Accum) : Option ℚ :=
  if a.count = 0 then none else some a.wvsum

/-- The statistic catalogue of `CPP_stats`, in the order of its dispatch
chain (source lines 313-341). -/
def supportedStats : List String :=
  ["mean", "sum", "count", "min", "max", "median", "mode", "majority",
   "minority", "variety", "weighted_mean", "weighted_sum", "variance",
   "stdev", "coefficient_of_variation", "quantile"]

/-- The string-dispatched evaluation of one requested statistic on one final
accumulator (source lines 313-342): known names produce their column block
(`quantile` expands to one column per requested fraction, in order); an
unknown name reaches the final `else` and stops with `Unknown stat`. -/
def evalStat (qs : List ℚ) (rs : Accum) (stat : String) : Except RErr (List (Option ℚ)) :=
  if stat = "mean" then .ok [rs.meanStat]
  else if stat = "sum" then .ok [rs.sumStat]
  else if stat = "count" then .ok [rs.countStat]
  else if stat = "min" then .ok [rs.minv]
  else if stat = "max" then .ok [rs.maxv]
  else if stat = "median" then .ok [rs.quantileStat (1 / 2)]
  else if stat = "mode" then .ok [rs.modeStat]
  else if stat = "majority" then .ok [rs.modeStat]
  else if stat = "minority" then .ok [rs.minorityStat]
  else if stat = "variety" then .ok [rs.varietyStat]
  else if stat = "weighted_mean" then .ok [rs.weightedMeanStat]
  else if stat = "weighted_sum" then .ok [rs.weightedSumStat]
  else if stat = "variance" then .ok [rs.varianceStat]
  else if stat = "stdev" then .ok [rs.stdevStat]
  else if stat = "coefficient_of_variation" then .ok [rs.cvStat]
  else if stat = "quantile" then .ok (qs.map (fun q => rs.quantileStat q))
  else .error (.unknownStat stat)

/-- One row of the statistics matrix: the requested statistics evaluated left
to right on one accumulator (inner loop of source lines 312-343). -/
def assembleRow (qs : List ℚ) (rs : Accum) : List String → Except RErr (List (Option ℚ))
  | [] => .ok []
  | s :: rest =>
    match evalStat qs rs s with
    | .error e => .error e
    | .ok h =>
      match assembleRow qs rs rest with
      | .error e => .error e
      | .ok t => .ok (h ++ t)

/-- The statistics matrix: one row per result index (outer loop of source
lines 308-344). -/
def assembleRows (qs : List ℚ) (accums : ℕ → Accum) (stats : List String) :
    List ℕ → Except RErr (List (List (Option ℚ)))
  | [] => .ok []
  | j :: rest =>
    match assembleRow qs (accums j) stats with
    | .error e => .error e
    | .ok r =>
      match assembleRows qs accums stats rest with
      | .error e => .error e
      | .ok t => .ok (r :: t)

/-- The request-validation loop of `CPP_stats` (source lines 228-252): per
requested statistic, accumulate `store_values` and the result-column count,
rejecting `count`/`sum` under disaggregation and `quantile` without supplied
fractions.  Unknown names pass through this loop, contributing one column. -/
def validateStats (disagg : Bool) (nq : ℕ) :
    List String → Bool → ℕ → Except RErr (Bool × ℕ)
  | [], sv, size => .ok (sv, size)
  | stat :: rest, sv, size =>
    if disagg ∧ (stat = "count" ∨ stat = "sum") then .error .countSumDisaggregated
    else if stat = "quantile" then
      if nq = 0 then .error .quantilesNotSpecified
      else validateStats disagg nq rest (sv || requires_stored_values stat) (size + nq)
    else validateStats disagg nq rest (sv || requires_stored_values stat) (size + 1)

/-- The grid of source line 222: the common grid of values and weights when
weighted, else the value grid. -/
def commonGrid (b : StatsBase) : Grid :=
  match b.weights with
  | none => b.rast.grid
  | some w => b.rast.grid.common_grid w.grid

/-- Disaggregation detection of source line 224: the common grid is strictly
finer than the value raster's grid on either axis. -/
def disaggregated (b : StatsBase) : Bool :=
  decide ((commonGrid b).dx < b.rast.grid.dx) ||
  decide ((commonGrid b).dy < b.rast.grid.dy)

/-- Layer-count compatibility check of source lines 211-213. -/
def layersOK (b : StatsBase) : Bool :=
  match b.weights with
  | none => true
  | some w =>
    !(decide (1 < b.rast.nlayers) && decide (1 < w.nlayers) &&
      decide (b.rast.nlayers ≠ w.nlayers))

/-- Result-row count of source line 254: `max(nlayers, nweights)`, with
`nweights = 0` when no weight raster is supplied. -/
def nresults (b : StatsBase) : ℕ :=
  max b.rast.nlayers (match b.weights with | none => 0 | some w => w.nlayers)

/-- Layer pairing of source lines 272-303: per result row, which value layer
and which weight layer feed the row's accumulator (recycling the single
layer of the smaller side; weight 1 when unweighted). -/
def rowFns (b : StatsBase) (i : ℕ) : (ℕ → ℚ) × (ℕ → ℚ) :=
  match b.weights with
  | none => (b.rast.vals i, fun _ => 1)
  | some w =>
    if w.nlayers < b.rast.nlayers then (b.rast.vals i, w.vals 0)
    else if b.rast.nlayers < w.nlayers then (b.rast.vals 0, w.vals i)
    else (b.rast.vals i, w.vals i)

/-- Stream the cells of one window through one accumulator
(`RasterStats::process`). -/
def processCells (cov vf wf : ℕ → ℚ) (cells : List ℕ) (a : Accum) : Accum :=
  cells.foldl (fun acc cl => acc.update (cov cl) (vf cl) (wf cl)) a

/-- One window of the loop at source lines 267-305: an empty coverage grid is
skipped, otherwise every accumulator processes the window with its paired
layers. -/
def stepWindow (b : StatsBase) (accums : ℕ → Accum) (w : List ℕ) : ℕ → Accum :=
  match w with
  | [] => accums
  | _ => fun i => processCells b.cov (rowFns b i).1 (rowFns b i).2 w (accums i)

/-- Collaborator invocations of one window: the coverage computation always
runs; reads follow the layer-pairing branch, and are skipped entirely when
the window's coverage grid is empty. -/
def windowEvents (b : StatsBase) (w : List ℕ) : List Event :=
  Event.coverage w ::
    match w with
    | [] => []
    | _ =>
      match b.weights with
      | none => (List.range b.rast.nlayers).map Event.readValues
      | some ws =>
        if ws.nlayers < b.rast.nlayers then
          Event.readWeights 0 :: (List.range b.rast.nlayers).map Event.readValues
        else if b.rast.nlayers < ws.nlayers then
          Event.readValues 0 :: (List.range ws.nlayers).map Event.readWeights
        else
          (List.range b.rast.nlayers).flatMap
            (fun i => [Event.readValues i, Event.readWeights i])

/-- The window phase of `CPP_stats` (source lines 264-306): when the geometry
bounding box intersects the common grid's extent, fold the windows of the
cropped grid in sequence, recording every collaborator invocation; otherwise
nothing runs and the accumulators stay in their initial state. -/
def runWindows (b : StatsBase) (part : List (List ℕ)) : List Event × (ℕ → Accum) :=
  if b.bbox.intersects (commonGrid b).extent then
    part.foldl (fun st w => (st.1 ++ windowEvents b w, stepWindow b st.2 w))
      ([], fun _ => Accum.init)
  else ([], fun _ => Accum.init)

/-- The quantile-fraction list: the supplied fractions, empty when absent. -/
def qlist (b : StatsBase) : List ℚ := b.quantiles.getD []

/-- Shallow embedding of `CPP_stats` (source lines 185-351): validate
`max_cells_in_memory`, the layer counts and the request; then run the window
phase; then assemble the statistics matrix.  The first component is the trace
of collaborator invocations performed before returning or stopping. -/
def CPP_stats (b : StatsBase) (part : List (List ℕ)) :
    List Event × Except RErr (List (List (Option ℚ))) :=
  if b.maxCells < 1 then ([], .error .invalidMaxCells)
  else if layersOK b then
    match validateStats (disaggregated b) (qlist b).length b.stats false 0 with
    | .error e => ([], .error e)
    | .ok _ =>
      let r := runWindows b part
      (r.1, assembleRows (qlist b) r.2 b.stats (List.range (nresults b)))
  else ([], .error .incompatibleLayers)

/-- Decidable equality of `Except` results, used to evaluate the embedding on
concrete inputs. -/
instance {ε α : Type _} [DecidableEq ε] [DecidableEq α] : DecidableEq (Except ε α)
  | .error x, .error y =>
    if h : x = y then .isTrue (by rw [h])
    else .isFalse (fun hc => Except.noConfusion hc (fun h2 => h h2))
  | .error _, .ok _ => .isFalse (fun hc => Except.noConfusion hc)
  | .ok _, .error _ => .isFalse (fun hc => Except.noConfusion hc)
  | .ok x, .ok y =>
    if h : x = y then .isTrue (by rw [h])
    else .isFalse (fun hc => Except.noConfusion hc (fun h2 => h h2))

/-- The column block a supported statistic contributes to its row. -/
def statColumns (qs : List ℚ) (a : Accum) (s : String) : List (Option ℚ) :=
  match evalStat qs a s with
  | .ok v => v
  | .error _ => []

/-- A name outside the catalogue falls through the dispatch chain of
`evalStat` to the `Unknown stat` stop. -/
theorem evalStat_not_supported (qs : List ℚ) (rs : Accum) {s : String}
    (h : s ∉ supportedStats) : evalStat qs rs s = .error (.unknownStat s) := by
  simp only [supportedStats, List.mem_cons, List.not_mem_nil, or_false, not_or] at h
  obtain ⟨h1, h2, h3, h4, h5, h6, h7, h8, h9, h10, h11, h12, h13, h14, h15, h16⟩ := h
  simp [evalStat, h1, h2, h3, h4, h5, h6, h7, h8, h9, h10, h11, h12, h13, h14, h15, h16]

/-- Every name of the catalogue is dispatched successfully. -/
theorem evalStat_supported (qs : List ℚ) (rs : Accum) {s : String}
    (h : s ∈ supportedStats) : ∃ v, evalStat qs rs s = .ok v := by
  fin_cases h <;> exact ⟨_, rfl⟩

/-- A successful dispatch implies the name is in the catalogue. -/
theorem evalStat_ok_supported (qs : List ℚ) (rs : Accum) {s : String}
    {v : List (Option ℚ)} (h : evalStat qs rs s = .ok v) : s ∈ supportedStats := by
  by_contra hc
  rw [evalStat_not_supported qs rs hc] at h
  exact Except.noConfusion h

/-- The only stop `evalStat` can raise is `Unknown stat`. -/
theorem evalStat_error_shape (qs : List ℚ) (rs : Accum) {s : String} {e : RErr}
    (h : evalStat qs rs s = .error e) : e = .unknownStat s := by
  by_cases hs : s ∈ supportedStats
  · obtain ⟨v, hv⟩ := evalStat_supported qs rs hs
    rw [hv] at h; exact Except.noConfusion h
  · rw [evalStat_not_supported qs rs hs] at h
    exact (Except.noConfusion h (fun h2 => h2)).symm

/-- A successfully assembled row is the request-order concatenation of the
per-statistic column blocks, and every requested name is in the catalogue. -/
theorem assembleRow_ok_shape (qs : List ℚ) (a : Accum) :
    ∀ (stats : List String) (r : List (Option ℚ)), assembleRow qs a stats = .ok r →
      r = stats.flatMap (statColumns qs a) ∧ ∀ s ∈ stats, s ∈ supportedStats := by
  intro stats
  induction stats with
  | nil =>
    intro r h
    unfold assembleRow at h
    obtain rfl : [] = r := Except.noConfusion h (fun h2 => h2)
    simp
  | cons s rest ih =>
    intro r h
    unfold assembleRow at h
    cases h1 : evalStat qs a s with
    | error e => rw [h1] at h; exact Except.noConfusion h
    | ok hd =>
      rw [h1] at h
      cases h2 : assembleRow qs a rest with
      | error e => rw [h2] at h; exact Except.noConfusion h
      | ok tl =>
        rw [h2] at h
        obtain rfl : hd ++ tl = r := Except.noConfusion h (fun h2 => h2)
        obtain ⟨hsh, hsup⟩ := ih tl h2
        constructor
        · rw [List.flatMap_cons, hsh]
          have : statColumns qs a s = hd := by rw [statColumns, h1]
          rw [this]
        · intro t ht
          rcases List.mem_cons.mp ht with rfl | ht2
          · exact evalStat_ok_supported qs a h1
          · exact hsup t ht2

/-- A row over catalogue-only names assembles successfully. -/
theorem assembleRow_ok_of_supported (qs : List ℚ) (a : Accum) :
    ∀ (stats : List String), (∀ s ∈ stats, s ∈ supportedStats) →
      ∃ r, assembleRow qs a stats = .ok r := by
  intro stats
  induction stats with
  | nil => intro _; exact ⟨[], rfl⟩
  | cons s rest ih =>
    intro hsup
    obtain ⟨hd, h1⟩ := evalStat_supported qs a (hsup s (List.mem_cons_self s rest))
    obtain ⟨tl, h2⟩ := ih (fun t ht => hsup t (List.mem_cons_of_mem s ht))
    refine ⟨hd ++ tl, ?_⟩
    unfold assembleRow
    rw [h1, h2]

/-- A requested name outside the catalogue makes row assembly stop with
`Unknown stat`. -/
theorem assembleRow_error_of_unknown (qs : List ℚ) (a : Accum) :
    ∀ (stats : List String) (s : String), s ∈ stats → s ∉ supportedStats →
      ∃ t, assembleRow qs a stats = .error (.unknownStat t) := by
  intro stats
  induction stats with
  | nil => intro s hs; exact absurd hs (List.not_mem_nil s)
  | cons u rest ih =>
    intro s hs hunk
    by_cases hu : u ∈ supportedStats
    · obtain ⟨hd, h1⟩ := evalStat_supported qs a hu
      have hsr : s ∈ rest := by
        rcases List.mem_cons.mp hs with rfl | h2
        · exact absurd hu hunk
        · exact h2
      obtain ⟨t, h2⟩ := ih s hsr hunk
      refine ⟨t, ?_⟩
      unfold assembleRow
      rw [h1, h2]
    · refine ⟨u, ?_⟩
      unfold assembleRow
      rw [evalStat_not_supported qs a hu]

/-- The only stop row assembly can raise is `Unknown stat`. -/
theorem assembleRow_error_shape (qs : List ℚ) (a : Accum) :
    ∀ (stats : List String) (e : RErr), assembleRow qs a stats = .error e →
      ∃ t, e = .unknownStat t := by
  intro stats
  induction stats with
  | nil => intro e h; exact Except.noConfusion h
  | cons s rest ih =>
    intro e h
    unfold assembleRow at h
    cases h1 : evalStat qs a s with
    | error e2 =>
      rw [h1] at h
      obtain rfl : e2 = e := Except.noConfusion h (fun h2 => h2)
      exact ⟨s, (evalStat_error_shape qs a h1)⟩
    | ok hd =>
      rw [h1] at h
      cases h2 : assembleRow qs a rest with
      | error e2 =>
        rw [h2] at h
        obtain rfl : e2 = e := Except.noConfusion h (fun h2 => h2)
        exact ih e2 h2
      | ok tl => rw [h2] at h; exact Except.noConfusion h

/-- A successfully assembled matrix has one row per requested row index, each
row of the stated shape. -/
theorem assembleRows_ok_shape (qs : List ℚ) (accums : ℕ → Accum) (stats : List String) :
    ∀ (js : List ℕ) (m : List (List (Option ℚ))), assembleRows qs accums stats js = .ok m →
      m.length = js.length ∧
        ∀ row ∈ m, ∃ j ∈ js, assembleRow qs (accums j) stats = .ok row := by
  intro js
  induction js with
  | nil =>
    intro m h
    obtain rfl : [] = m := Except.noConfusion h (fun h2 => h2)
    simp
  | cons j rest ih =>
    intro m h
    unfold assembleRows at h
    cases h1 : assembleRow qs (accums j) stats with
    | error e => rw [h1] at h; exact Except.noConfusion h
    | ok r =>
      rw [h1] at h
      cases h2 : assembleRows qs accums stats rest with
      | error e => rw [h2] at h; exact Except.noConfusion h
      | ok t =>
        rw [h2] at h
        obtain rfl : r :: t = m := Except.noConfusion h (fun h2 => h2)
        obtain ⟨hlen, hrow⟩ := ih t h2
        refine ⟨by simp [hlen], ?_⟩
        intro row hrow2
        rcases List.mem_cons.mp hrow2 with rfl | h3
        · exact ⟨j, List.mem_cons_self j rest, h1⟩
        · obtain ⟨j2, hj2, hj3⟩ := hrow row h3
          exact ⟨j2, List.mem_cons_of_mem j hj2, hj3⟩

/-- A matrix over catalogue-only names assembles successfully. -/
theorem assembleRows_ok_of_supported (qs : List ℚ) (accums : ℕ → Accum)
    (stats : List String) (hsup : ∀ s ∈ stats, s ∈ supportedStats) :
    ∀ (js : List ℕ), ∃ m, assembleRows qs accums stats js = .ok m := by
  intro js
  induction js with
  | nil => exact ⟨[], rfl⟩
  | cons j rest ih =>
    obtain ⟨r, h1⟩ := assembleRow_ok_of_supported qs (accums j) stats hsup
    obtain ⟨t, h2⟩ := ih
    refine ⟨r :: t, ?_⟩
    unfold assembleRows
    rw [h1, h2]

/-- The only stop matrix assembly can raise is `Unknown stat`. -/
theorem assembleRows_error_shape (qs : List ℚ) (accums : ℕ → Accum) (stats : List String) :
    ∀ (js : List ℕ) (e : RErr), assembleRows qs accums stats js = .error e →
      ∃ t, e = .unknownStat t := by
  intro js
  induction js with
  | nil => intro e h; exact Except.noConfusion h
  | cons j rest ih =>
    intro e h
    unfold assembleRows at h
    cases h1 : assembleRow qs (accums j) stats with
    | error e2 =>
      rw [h1] at h
      obtain rfl : e2 = e := Except.noConfusion h (fun h2 => h2)
      exact assembleRow_error_shape qs (accums j) stats e2 h1
    | ok r =>
      rw [h1] at h
      cases h2 : assembleRows qs accums stats rest with
      | error e2 =>
        rw [h2] at h
        obtain rfl : e2 = e := Except.noConfusion h (fun h2 => h2)
        exact ih e2 h2
      | ok t => rw [h2] at h; exact Except.noConfusion h

/-- The request-validation loop only raises the disaggregated-count/sum stop
or the missing-quantiles stop. -/
theorem validateStats_error_shape (disagg : Bool) (nq : ℕ) :
    ∀ (l : List String) (sv : Bool) (sz : ℕ) (e : RErr),
      validateStats disagg nq l sv sz = .error e →
        e = .countSumDisaggregated ∨ e = .quantilesNotSpecified := by
  intro l
  induction l with
  | nil => intro sv sz e h; exact Except.noConfusion h
  | cons stat rest ih =>
    intro sv sz e h
    unfold validateStats at h
    split at h
    · obtain rfl : RErr.countSumDisaggregated = e := Except.noConfusion h (fun h2 => h2)
      exact Or.inl rfl
    · split at h
      · split at h
        · obtain rfl : RErr.quantilesNotSpecified = e := Except.noConfusion h (fun h2 => h2)
          exact Or.inr rfl
        · exact ih _ _ e h
      · exact ih _ _ e h

/-- Under disaggregation, a request containing `count` or `sum` never passes
validation. -/
theorem validateStats_error_of_countsum (nq : ℕ) :
    ∀ (l : List String), ("count" ∈ l ∨ "sum" ∈ l) →
      ∀ (sv : Bool) (sz : ℕ), ∃ e, validateStats true nq l sv sz = .error e := by
  intro l
  induction l with
  | nil =>
    intro h
    rcases h with h | h <;> exact absurd h (List.not_mem_nil _)
  | cons stat rest ih =>
    intro h sv sz
    by_cases hcs : stat = "count" ∨ stat = "sum"
    · refine ⟨.countSumDisaggregated, ?_⟩
      unfold validateStats
      rw [if_pos ⟨rfl, hcs⟩]
    · have hrest : "count" ∈ rest ∨ "sum" ∈ rest := by
        rcases h with h | h
        · rcases List.mem_cons.mp h with rfl | h2
          · exact absurd (Or.inl rfl) hcs
          · exact Or.inl h2
        · rcases List.mem_cons.mp h with rfl | h2
          · exact absurd (Or.inr rfl) hcs
          · exact Or.inr h2
      unfold validateStats
      rw [if_neg (fun hc => hcs hc.2)]
      by_cases hq : stat = "quantile"
      · rw [if_pos hq]
        by_cases hnq : nq = 0
        · exact ⟨.quantilesNotSpecified, by rw [if_pos hnq]⟩
        · rw [if_neg hnq]; exact ih hrest _ _
      · rw [if_neg hq]; exact ih hrest _ _

/-- A request containing `quantile` with no supplied fractions never passes
validation. -/
theorem validateStats_error_of_quantile (disagg : Bool) :
    ∀ (l : List String), "quantile" ∈ l →
      ∀ (sv : Bool) (sz : ℕ), ∃ e, validateStats disagg 0 l sv sz = .error e := by
  intro l
  induction l with
  | nil => intro h; exact absurd h (List.not_mem_nil _)
  | cons stat rest ih =>
    intro h sv sz
    unfold validateStats
    by_cases hcs : disagg ∧ (stat = "count" ∨ stat = "sum")
    · exact ⟨.countSumDisaggregated, by rw [if_pos hcs]⟩
    · rw [if_neg hcs]
      by_cases hq : stat = "quantile"
      · rw [if_pos hq, if_pos rfl]
        exact ⟨.quantilesNotSpecified, rfl⟩
      · rw [if_neg hq]
        have hrest : "quantile" ∈ rest := by
          rcases List.mem_cons.mp h with rfl | h2
          · exact absurd rfl hq
          · exact h2
        exact ih hrest _ _

/-- Unfolding of `CPP_stats` when every up-front check passes. -/
theorem CPP_stats_eq_of_valok (b : StatsBase) (part : List (List ℕ))
    (hmc : ¬ b.maxCells < 1) (hl : layersOK b = true) {p : Bool × ℕ}
    (hval : validateStats (disaggregated b) (qlist b).length b.stats false 0 = .ok p) :
    CPP_stats b part =
      ((runWindows b part).1,
        assembleRows (qlist b) (runWindows b part).2 b.stats (List.range (nresults b))) := by
  unfold CPP_stats
  rw [if_neg hmc, if_pos hl, hval]

/-- Unfolding of `CPP_stats` when request validation stops. -/
theorem CPP_stats_eq_of_valerr (b : StatsBase) (part : List (List ℕ))
    (hmc : ¬ b.maxCells < 1) (hl : layersOK b = true) {e : RErr}
    (hval : validateStats (disaggregated b) (qlist b).length b.stats false 0 = .error e) :
    CPP_stats b part = ([], .error e) := by
  unfold CPP_stats
  rw [if_neg hmc, if_pos hl, hval]

/-- Whether an `Except` result is a success. -/
def exOk {ε α : Type _} : Except ε α → Bool
  | .ok _ => true
  | .error _ => false

/-- A successfully assembled matrix is exactly the per-row concatenation of
the per-statistic column blocks. -/
theorem assembleRows_ok_eq (qs : List ℚ) (accums : ℕ → Accum) (stats : List String) :
    ∀ (js : List ℕ) (m : List (List (Option ℚ))), assembleRows qs accums stats js = .ok m →
      m = js.map (fun j => stats.flatMap (statColumns qs (accums j))) := by
  intro js
  induction js with
  | nil =>
    intro m h
    obtain rfl : [] = m := Except.noConfusion h (fun h2 => h2)
    simp
  | cons j rest ih =>
    intro m h
    unfold assembleRows at h
    cases h1 : assembleRow qs (accums j) stats with
    | error e => rw [h1] at h; exact Except.noConfusion h
    | ok r =>
      rw [h1] at h
      cases h2 : assembleRows qs accums stats rest with
      | error e => rw [h2] at h; exact Except.noConfusion h
      | ok t =>
        rw [h2] at h
        obtain rfl : r :: t = m := Except.noConfusion h (fun h2 => h2)
        rw [List.map_cons, ← ih t h2, (assembleRow_ok_shape qs (accums j) stats r h1).1]

/-- Congruence for `flatMap` over a list. -/
theorem flatMap_congr {α β : Type _} {f g : α → List β} :
    ∀ (l : List α), (∀ x ∈ l, f x = g x) → l.flatMap f = l.flatMap g := by
  intro l
  induction l with
  | nil => intro _; rfl
  | cons x rest ih =>
    intro h
    rw [List.flatMap_cons, List.flatMap_cons, h x (List.mem_cons_self x rest),
      ih (fun y hy => h y (List.mem_cons_of_mem x hy))]

/-- Sample extent, grid and value source used by the concrete witnesses. -/
def boxUnit : Box := ⟨0, 0, 2, 2⟩

/-- A 1×1-cell-size grid over `boxUnit`. -/
def gridUnit : Grid := ⟨boxUnit, 1, 1⟩

/-- A single-layer value raster over `gridUnit`. -/
def valueSrc : RastSrc := ⟨gridUnit, 1, fun _ c => (c : ℚ) + 1⟩

/-- An unweighted request for `mean` with `maxCells = 4`. -/
def baseNoW : StatsBase := ⟨valueSrc, none, boxUnit, fun _ => 1, ["mean"], 4, none⟩

/-- Claim C8: a request with `max_cells_in_memory < 1` stops with the
configuration error of source line 197 before any tile is produced or any
window is processed, and with `max_cells_in_memory ≥ 1` that error is never
raised. -/
theorem maxcells_validated_up_front (b : StatsBase) (part : List (List ℕ)) :
    (b.maxCells < 1 → CPP_stats b part = ([], .error .invalidMaxCells)) ∧
    (1 ≤ b.maxCells → (CPP_stats b part).2 ≠ .error .invalidMaxCells) := by
  constructor
  · intro h
    unfold CPP_stats
    rw [if_pos h]
  · intro h hc
    have hmc : ¬ b.maxCells < 1 := by omega
    by_cases hl : layersOK b = true
    · cases hval : validateStats (disaggregated b) (qlist b).length b.stats false 0 with
      | error e =>
        rw [CPP_stats_eq_of_valerr b part hmc hl hval] at hc
        have he : e = .invalidMaxCells := Except.noConfusion hc (fun h2 => h2)
        rcases validateStats_error_shape (disaggregated b) (qlist b).length b.stats
          false 0 e hval with h2 | h2 <;> (rw [h2] at he; exact RErr.noConfusion he)
      | ok p =>
        rw [CPP_stats_eq_of_valok b part hmc hl hval] at hc
        have hc2 : assembleRows (qlist b) (runWindows b part).2 b.stats
            (List.range (nresults b)) = .error .invalidMaxCells := hc
        obtain ⟨t, ht⟩ := assembleRows_error_shape (qlist b) (runWindows b part).2 b.stats
          (List.range (nresults b)) .invalidMaxCells hc2
        exact RErr.noConfusion ht
    · unfold CPP_stats at hc
      rw [if_neg hmc, if_neg hl] at hc
      have he : RErr.incompatibleLayers = RErr.invalidMaxCells :=
        Except.noConfusion hc (fun h2 => h2)
      exact RErr.noConfusion he

/-- Witness for C8: `maxCells = 0` stops up front; `maxCells = 4` never
raises that error. -/
theorem maxcells_validated_up_front_witness :
    CPP_stats { baseNoW with maxCells := 0 } [[0]] = ([], .error .invalidMaxCells) ∧
    (CPP_stats baseNoW [[0]]).2 ≠ .error .invalidMaxCells :=
  ⟨(maxcells_validated_up_front { baseNoW with maxCells := 0 } [[0]]).1 (by decide),
   (maxcells_validated_up_front baseNoW [[0]]).2 (by decide)⟩

/-- Claim C4: with both rasters multi-layer and differing layer counts the
request stops with the configuration error of source line 212 before any
window is processed; and any matrix `CPP_stats` returns has
`max(nlayers, nweights) = nresults` rows. -/
theorem layer_count_compatibility (b : StatsBase) (part : List (List ℕ)) :
    (∀ w : RastSrc, b.weights = some w → 1 < b.rast.nlayers → 1 < w.nlayers →
      b.rast.nlayers ≠ w.nlayers → 1 ≤ b.maxCells →
      CPP_stats b part = ([], .error .incompatibleLayers)) ∧
    (CPP_stats b part).2.map List.length = (CPP_stats b part).2.map (fun _ => nresults b) := by
  constructor
  · intro w hw h1 h2 h3 hmc
    have hl : ¬ layersOK b = true := by
      simp [layersOK, hw, h1, h2, h3]
    unfold CPP_stats
    rw [if_neg (by omega), if_neg hl]
  · cases hres : (CPP_stats b part).2 with
    | error e => rfl
    | ok m =>
      rw [Except.map, Except.map]
      by_cases hmc : b.maxCells < 1
      · unfold CPP_stats at hres
        rw [if_pos hmc] at hres
        exact Except.noConfusion hres
      by_cases hl : layersOK b = true
      · cases hval : validateStats (disaggregated b) (qlist b).length b.stats false 0 with
        | error e =>
          rw [CPP_stats_eq_of_valerr b part hmc hl hval] at hres
          exact Except.noConfusion hres
        | ok p =>
          rw [CPP_stats_eq_of_valok b part hmc hl hval] at hres
          have hres2 : assembleRows (qlist b) (runWindows b part).2 b.stats
              (List.range (nresults b)) = .ok m := hres
          have := (assembleRows_ok_shape (qlist b) (runWindows b part).2 b.stats
            (List.range (nresults b)) m hres2).1
          rw [this, List.length_range]
      · unfold CPP_stats at hres
        rw [if_neg hmc, if_neg hl] at hres
        exact Except.noConfusion hres

/-- A 2-layer value raster over `gridUnit`. -/
def valueSrc2 : RastSrc := ⟨gridUnit, 2, fun l c => (l : ℚ) + (c : ℚ)⟩

/-- A 3-layer weight raster over `gridUnit`. -/
def weightSrc3 : RastSrc := ⟨gridUnit, 3, fun _ _ => 2⟩

/-- A request with incompatible layer counts (2 value layers, 3 weight
layers). -/
def base4 : StatsBase := ⟨valueSrc2, some weightSrc3, boxUnit, fun _ => 1, ["mean"], 4, none⟩

/-- Witness for C4: the 2-vs-3-layer request stops up front, and a returned
matrix has `nresults` rows. -/
theorem layer_count_compatibility_witness :
    CPP_stats base4 [[0]] = ([], .error .incompatibleLayers) ∧
    (CPP_stats baseNoW [[0]]).2.map List.length =
      (CPP_stats baseNoW [[0]]).2.map (fun _ => nresults baseNoW) :=
  ⟨(layer_count_compatibility base4 [[0]]).1 weightSrc3 rfl (by decide) (by decide)
      (by decide) (by decide),
   (layer_count_compatibility baseNoW [[0]]).2⟩

/-- Claim C3: when the reconciled common grid is strictly finer than the
value raster's grid, a request containing `count` or `sum` stops before any
window is processed (empty collaborator trace), while the same configuration
with only `mean` requested succeeds. -/
theorem disaggregated_count_sum_rejected (b : StatsBase) (part : List (List ℕ))
    (hd : disaggregated b = true) :
    (("count" ∈ b.stats ∨ "sum" ∈ b.stats) →
      (CPP_stats b part).1 = [] ∧ exOk (CPP_stats b part).2 = false) ∧
    (1 ≤ b.maxCells → layersOK b = true →
      exOk (CPP_stats { b with stats := ["mean"] } part).2 = true) := by
  constructor
  · intro hcs
    by_cases hmc : b.maxCells < 1
    · unfold CPP_stats
      rw [if_pos hmc]
      exact ⟨rfl, rfl⟩
    by_cases hl : layersOK b = true
    · obtain ⟨e, he⟩ := validateStats_error_of_countsum (qlist b).length b.stats hcs false 0
      have he2 : validateStats (disaggregated b) (qlist b).length b.stats false 0 = .error e := by
        rw [hd]; exact he
      rw [CPP_stats_eq_of_valerr b part hmc hl he2]
      exact ⟨rfl, rfl⟩
    · unfold CPP_stats
      rw [if_neg hmc, if_neg hl]
      exact ⟨rfl, rfl⟩
  · intro hmc hl
    have hmc2 : ¬ ({ b with stats := ["mean"] } : StatsBase).maxCells < 1 :=
      show ¬ b.maxCells < 1 by omega
    have hl2 : layersOK { b with stats := ["mean"] } = true := hl
    have hval : validateStats (disaggregated { b with stats := ["mean"] })
        (qlist { b with stats := ["mean"] }).length ["mean"] false 0 = .ok (false, 1) := by
      unfold validateStats
      rw [if_neg (fun hc => absurd hc.2 (by decide)), if_neg (by decide : ¬ "mean" = "quantile")]
      rfl
    obtain ⟨m, hm⟩ := assembleRows_ok_of_supported
      (qlist { b with stats := ["mean"] }) (runWindows { b with stats := ["mean"] } part).2
      ["mean"] (by decide) (List.range (nresults { b with stats := ["mean"] }))
    rw [CPP_stats_eq_of_valok { b with stats := ["mean"] } part hmc2 hl2 hval]
    have : assembleRows (qlist { b with stats := ["mean"] })
        (runWindows { b with stats := ["mean"] } part).2 ["mean"]
        (List.range (nresults { b with stats := ["mean"] })) = .ok m := hm
    rw [show (( (runWindows { b with stats := ["mean"] } part).1,
        assembleRows (qlist { b with stats := ["mean"] })
          (runWindows { b with stats := ["mean"] } part).2 ["mean"]
          (List.range (nresults { b with stats := ["mean"] }))) :
        List Event × Except RErr (List (List (Option ℚ)))).2 =
      assembleRows (qlist { b with stats := ["mean"] })
        (runWindows { b with stats := ["mean"] } part).2 ["mean"]
        (List.range (nresults { b with stats := ["mean"] })) from rfl, hm]
    rfl

/-- A coarse (2×2 cell size) single-layer value raster over `boxUnit`. -/
def valueCoarse : RastSrc := ⟨⟨boxUnit, 2, 2⟩, 1, fun _ _ => 3⟩

/-- A fine (1×1 cell size) single-layer weight raster over `boxUnit`. -/
def weightFine : RastSrc := ⟨gridUnit, 1, fun _ _ => 1⟩

/-- A disaggregating request (coarse values, fine weights) asking for `sum`. -/
def base3 : StatsBase := ⟨valueCoarse, some weightFine, boxUnit, fun _ => 1, ["sum", "mean"], 4, none⟩

/-- Witness for C3: the disaggregated `sum` request stops with an empty
trace; the same configuration with only `mean` succeeds. -/
theorem disaggregated_count_sum_rejected_witness :
    ((CPP_stats base3 [[0]]).1 = [] ∧ exOk (CPP_stats base3 [[0]]).2 = false) ∧
    exOk (CPP_stats { base3 with stats := ["mean"] } [[0]]).2 = true :=
  ⟨(disaggregated_count_sum_rejected base3 [[0]] (by decide)).1 (Or.inr (by decide)),
   (disaggregated_count_sum_rejected base3 [[0]] (by decide)).2 (by decide) (by decide)⟩

/-- Width of the column block of a supported statistic: `quantile` expands to
one column per supplied fraction, every other statistic yields one column. -/
theorem statColumns_length (qs : List ℚ) (a : Accum) {s : String}
    (h : s ∈ supportedStats) :
    (statColumns qs a s).length = if s = "quantile" then qs.length else 1 := by
  fin_cases h <;> simp [statColumns, evalStat]

/-- A successful assembly over at least one row forces every requested name
into the catalogue. -/
theorem assembleRows_ok_sup (qs : List ℚ) (accums : ℕ → Accum) (stats : List String) :
    ∀ (js : List ℕ) (m : List (List (Option ℚ))), assembleRows qs accums stats js = .ok m →
      js = [] ∨ ∀ s ∈ stats, s ∈ supportedStats := by
  intro js
  cases js with
  | nil => intro m _; exact Or.inl rfl
  | cons j rest =>
    intro m h
    unfold assembleRows at h
    cases h1 : assembleRow qs (accums j) stats with
    | error e => rw [h1] at h; exact Except.noConfusion h
    | ok r => exact Or.inr (assembleRow_ok_shape qs (accums j) stats r h1).2

/-- Claim C9: requesting `quantile` with an absent or empty fraction list is
rejected up front (empty collaborator trace, no matrix); a successful matrix
is the per-row request-order concatenation of column blocks, and every row
has one column per non-quantile statistic plus one column per supplied
quantile fraction. -/
theorem quantile_request_validation (b : StatsBase) (part : List (List ℕ)) :
    ("quantile" ∈ b.stats → (qlist b).length = 0 →
      (CPP_stats b part).1 = [] ∧ exOk (CPP_stats b part).2 = false) ∧
    (exOk (CPP_stats b part).2 = true →
      (CPP_stats b part).2 = .ok ((List.range (nresults b)).map
        (fun j => b.stats.flatMap (statColumns (qlist b) ((runWindows b part).2 j))))) ∧
    ((CPP_stats b part).2.map (fun m => m.map List.length) =
      (CPP_stats b part).2.map (fun m => m.map (fun _ =>
        (b.stats.map (fun s => if s = "quantile" then (qlist b).length else 1)).sum))) := by
  refine ⟨?_, ?_, ?_⟩
  · intro hq hnq
    by_cases hmc : b.maxCells < 1
    · unfold CPP_stats
      rw [if_pos hmc]
      exact ⟨rfl, rfl⟩
    by_cases hl : layersOK b = true
    · obtain ⟨e, he⟩ := validateStats_error_of_quantile (disaggregated b) b.stats hq false 0
      have he2 : validateStats (disaggregated b) (qlist b).length b.stats false 0 = .error e := by
        rw [hnq]; exact he
      rw [CPP_stats_eq_of_valerr b part hmc hl he2]
      exact ⟨rfl, rfl⟩
    · unfold CPP_stats
      rw [if_neg hmc, if_neg hl]
      exact ⟨rfl, rfl⟩
  · intro hok
    cases hres : (CPP_stats b part).2 with
    | error e => rw [hres] at hok; exact Bool.noConfusion hok
    | ok m =>
      by_cases hmc : b.maxCells < 1
      · unfold CPP_stats at hres
        rw [if_pos hmc] at hres
        exact Except.noConfusion hres
      by_cases hl : layersOK b = true
      · cases hval : validateStats (disaggregated b) (qlist b).length b.stats false 0 with
        | error e =>
          rw [CPP_stats_eq_of_valerr b part hmc hl hval] at hres
          exact Except.noConfusion hres
        | ok p =>
          rw [CPP_stats_eq_of_valok b part hmc hl hval] at hres
          have hres2 : assembleRows (qlist b) (runWindows b part).2 b.stats
              (List.range (nresults b)) = .ok m := hres
          rw [assembleRows_ok_eq (qlist b) (runWindows b part).2 b.stats
            (List.range (nresults b)) m hres2]
      · unfold CPP_stats at hres
        rw [if_neg hmc, if_neg hl] at hres
        exact Except.noConfusion hres
  · cases hres : (CPP_stats b part).2 with
    | error e => rfl
    | ok m =>
      by_cases hmc : b.maxCells < 1
      · unfold CPP_stats at hres
        rw [if_pos hmc] at hres
        exact Except.noConfusion hres
      by_cases hl : layersOK b = true
      · cases hval : validateStats (disaggregated b) (qlist b).length b.stats false 0 with
        | error e =>
          rw [CPP_stats_eq_of_valerr b part hmc hl hval] at hres
          exact Except.noConfusion hres
        | ok p =>
          rw [CPP_stats_eq_of_valok b part hmc hl hval] at hres
          have hres2 : assembleRows (qlist b) (runWindows b part).2 b.stats
              (List.range (nresults b)) = .ok m := hres
          have hm := assembleRows_ok_eq (qlist b) (runWindows b part).2 b.stats
            (List.range (nresults b)) m hres2
          rcases assembleRows_ok_sup (qlist b) (runWindows b part).2 b.stats
            (List.range (nresults b)) m hres2 with hnil | hsup
          · rw [hnil] at hm
            subst hm
            rfl
          · subst hm
            show Except.ok (List.map List.length (List.map
                (fun j => b.stats.flatMap (statColumns (qlist b) ((runWindows b part).2 j)))
                (List.range (nresults b)))) =
              Except.ok (List.map (fun _ =>
                  (b.stats.map (fun s => if s = "quantile" then (qlist b).length else 1)).sum)
                (List.map (fun j => b.stats.flatMap (statColumns (qlist b) ((runWindows b part).2 j)))
                  (List.range (nresults b))))
            rw [List.map_map, List.map_map]
            refine congrArg Except.ok (List.map_congr_left ?_)
            intro j _
            show (b.stats.flatMap (statColumns (qlist b) ((runWindows b part).2 j))).length = _
            rw [List.length_flatMap]
            exact congrArg List.sum (List.map_congr_left
              (fun s hs => statColumns_length (qlist b) ((runWindows b part).2 j) (hsup s hs)))
      · unfold CPP_stats at hres
        rw [if_neg hmc, if_neg hl] at hres
        exact Except.noConfusion hres

/-- A request asking for `quantile` with no supplied fractions. -/
def baseQ0 : StatsBase := { baseNoW with stats := ["quantile"] }

/-- A request asking for two quantiles and `mean`. -/
def baseQ1 : StatsBase :=
  { baseNoW with stats := ["quantile", "mean"], quantiles := some [1 / 4, 3 / 4] }

/-- Witness for C9 at concrete inputs: missing fractions stop up front; with
two fractions supplied the quantile request contributes two columns. -/
theorem quantile_request_validation_witness :
    ((CPP_stats baseQ0 [[0]]).1 = [] ∧ exOk (CPP_stats baseQ0 [[0]]).2 = false) ∧
    ((CPP_stats baseQ1 [[0]]).2.map (fun m => m.map List.length) =
      (CPP_stats baseQ1 [[0]]).2.map (fun m => m.map (fun _ =>
        (baseQ1.stats.map (fun s => if s = "quantile" then (qlist baseQ1).length else 1)).sum))) :=
  ⟨(quantile_request_validation baseQ0 [[0]]).1 (by decide) (by decide),
   (quantile_request_validation baseQ1 [[0]]).2.2⟩

/-- Running minimum is insensitive to the order of two updates. -/
theorem optMin_right_comm (o : Option ℚ) (v1 v2 : ℚ) :
    optMin (optMin o v1) v2 = optMin (optMin o v2) v1 := by
  cases o with
  | none => exact congrArg some (min_comm v1 v2)
  | some m => exact congrArg some (min_right_comm m v1 v2)

/-- Running maximum is insensitive to the order of two updates. -/
theorem optMax_right_comm (o : Option ℚ) (v1 v2 : ℚ) :
    optMax (optMax o v1) v2 = optMax (optMax o v2) v1 := by
  cases o with
  | none => exact congrArg some (max_comm v1 v2)
  | some m =>
    exact congrArg some (show max (max m v1) v2 = max (max m v2) v1 by
      rw [max_assoc, max_comm v1 v2, ← max_assoc])

/-- The accumulator update of two cells commutes: the merge operation of the
spec (§5, §8) is order-independent. -/
theorem Accum.update_right_comm (a : Accum) (c1 v1 w1 c2 v2 w2 : ℚ) :
    (a.update c1 v1 w1).update c2 v2 w2 = (a.update c2 v2 w2).update c1 v1 w1 := by
  unfold Accum.update
  by_cases h1 : 0 < c1 <;> by_cases h2 : 0 < c2 <;> simp [h1, h2]
  exact ⟨by ring, by ring, by ring, by ring, by ring,
    optMin_right_comm _ _ _, optMax_right_comm _ _ _, Multiset.cons_swap _ _ _⟩

/-- Streaming a permuted cell list through an accumulator yields the same
final state. -/
theorem processCells_perm (cov vf wf : ℕ → ℚ) {l1 l2 : List ℕ} (h : l1.Perm l2) :
    ∀ a : Accum, processCells cov vf wf l1 a = processCells cov vf wf l2 a := by
  induction h with
  | nil => intro a; rfl
  | cons x _ ih =>
    intro a
    simp only [processCells, List.foldl_cons]
    exact ih _
  | swap x y l =>
    intro a
    simp only [processCells, List.foldl_cons]
    rw [Accum.update_right_comm]
  | trans _ _ ih1 ih2 => intro a; rw [ih1 a, ih2 a]

/-- The window-phase fold accumulates, per result row, exactly the
concatenation of all window cells. -/
theorem foldl_stepWindow (b : StatsBase) :
    ∀ (part : List (List ℕ)) (st : List Event × (ℕ → Accum)),
      (part.foldl (fun st w => (st.1 ++ windowEvents b w, stepWindow b st.2 w)) st).2 =
        fun i => processCells b.cov (rowFns b i).1 (rowFns b i).2 part.flatten (st.2 i) := by
  intro part
  induction part with
  | nil => intro st; funext i; rfl
  | cons w rest ih =>
    intro st
    rw [List.foldl_cons, ih]
    funext i
    cases w with
    | nil => rfl
    | cons c cs =>
      show processCells b.cov (rowFns b i).1 (rowFns b i).2 rest.flatten
          (processCells b.cov (rowFns b i).1 (rowFns b i).2 (c :: cs) (st.2 i)) =
        processCells b.cov (rowFns b i).1 (rowFns b i).2 ((c :: cs) :: rest).flatten (st.2 i)
      simp only [processCells, List.flatten_cons]
      rw [List.foldl_append]

/-- With a disjoint bounding box the window phase performs nothing: no
collaborator event, untouched accumulators. -/
theorem runWindows_of_disjoint (b : StatsBase) (part : List (List ℕ))
    (h : b.bbox.intersects (commonGrid b).extent = false) :
    runWindows b part = ([], fun _ => Accum.init) := by
  unfold runWindows
  rw [if_neg (fun hc => Bool.false_ne_true (h ▸ hc))]

/-- With an intersecting bounding box the final accumulators are those of the
concatenated window cells. -/
theorem runWindows_snd_eq (b : StatsBase) (part : List (List ℕ))
    (h : b.bbox.intersects (commonGrid b).extent = true) :
    (runWindows b part).2 = fun i =>
      processCells b.cov (rowFns b i).1 (rowFns b i).2 part.flatten Accum.init := by
  unfold runWindows
  rw [if_pos h, foldl_stepWindow b part ([], fun _ => Accum.init)]

/-- Claim C2: the statistics result is invariant under re-partitioning the
cropped grid into windows — any two window partitions whose concatenated
cells are permutations of each other (as the outputs of `subdivide` for any
two `maxCells` values are) yield identical statistics matrices. -/
theorem window_partition_invariance (b : StatsBase) (P Q : List (List ℕ))
    (h : P.flatten.Perm Q.flatten) :
    (CPP_stats b P).2 = (CPP_stats b Q).2 := by
  have hacc : (runWindows b P).2 = (runWindows b Q).2 := by
    cases hI : b.bbox.intersects (commonGrid b).extent with
    | false => rw [runWindows_of_disjoint b P hI, runWindows_of_disjoint b Q hI]
    | true =>
      rw [runWindows_snd_eq b P hI, runWindows_snd_eq b Q hI]
      funext i
      exact processCells_perm _ _ _ h Accum.init
  by_cases hmc : b.maxCells < 1
  · unfold CPP_stats
    rw [if_pos hmc, if_pos hmc]
  by_cases hl : layersOK b = true
  · cases hval : validateStats (disaggregated b) (qlist b).length b.stats false 0 with
    | error e =>
      rw [CPP_stats_eq_of_valerr b P hmc hl hval, CPP_stats_eq_of_valerr b Q hmc hl hval]
    | ok p =>
      rw [CPP_stats_eq_of_valok b P hmc hl hval, CPP_stats_eq_of_valok b Q hmc hl hval]
      show assembleRows (qlist b) (runWindows b P).2 b.stats (List.range (nresults b)) =
        assembleRows (qlist b) (runWindows b Q).2 b.stats (List.range (nresults b))
      rw [hacc]
  · unfold CPP_stats
    rw [if_neg hmc, if_neg hl, if_neg hmc, if_neg hl]

/-- Witness for C2: splitting two cells into two windows or presenting them
as one reversed window yields the same matrix. -/
theorem window_partition_invariance_witness :
    (CPP_stats baseNoW [[0], [1]]).2 = (CPP_stats baseNoW [[1, 0]]).2 :=
  window_partition_invariance baseNoW [[0], [1]] [[1, 0]] (by decide)

/-- The initial accumulator has no covered values. -/
theorem distinct_init : Accum.init.distinct = [] := by
  simp [Accum.distinct, Accum.init]

/-- Quantiles of the untouched accumulator are missing. -/
theorem quantileStat_init (q : ℚ) : Accum.init.quantileStat q = none := by
  simp [Accum.quantileStat, distinct_init]

/-- Coverage-weighted count of the untouched accumulator. -/
theorem Accum.init_count : Accum.init.count = 0 := rfl

/-- Running minimum of the untouched accumulator. -/
theorem Accum.init_minv : Accum.init.minv = none := rfl

/-- Running maximum of the untouched accumulator. -/
theorem Accum.init_maxv : Accum.init.maxv = none := rfl

/-- Value data of the untouched accumulator. -/
theorem Accum.init_vals : Accum.init.vals = 0 := rfl

/-- Each supported statistic on the untouched accumulator: `count` and
`variety` are 0, everything else is the missing-value sentinel. -/
theorem statColumns_init (qs : List ℚ) {s : String} (h : s ∈ supportedStats) :
    statColumns qs Accum.init s =
      if s = "count" ∨ s = "variety" then [some 0]
      else if s = "quantile" then qs.map (fun _ => none)
      else [none] := by
  fin_cases h <;>
    simp [statColumns, evalStat, Accum.meanStat, Accum.sumStat, Accum.countStat,
      Accum.varietyStat, Accum.varianceStat, Accum.stdevStat, Accum.cvStat,
      Accum.weightedMeanStat, Accum.weightedSumStat, Accum.modeStat,
      Accum.minorityStat, quantileStat_init, distinct_init, Accum.init_count,
      Accum.init_minv, Accum.init_maxv, Accum.init_vals]

/-- Claim C5: a geometry whose bounding box misses the raster extent yields
`count = 0`, `variety = 0`, and the missing-value sentinel for every other
requested statistic, in every row of a successfully returned matrix. -/
theorem zero_coverage_degeneracy (b : StatsBase) (part : List (List ℕ))
    (hdisj : b.bbox.intersects (commonGrid b).extent = false)
    (hok : exOk (CPP_stats b part).2 = true) :
    (CPP_stats b part).2 = .ok ((List.range (nresults b)).map (fun _ =>
      b.stats.flatMap (fun s =>
        if s = "count" ∨ s = "variety" then [some 0]
        else if s = "quantile" then (qlist b).map (fun _ => none)
        else [none]))) := by
  cases hres : (CPP_stats b part).2 with
  | error e => rw [hres] at hok; exact Bool.noConfusion hok
  | ok m =>
    by_cases hmc : b.maxCells < 1
    · unfold CPP_stats at hres
      rw [if_pos hmc] at hres
      exact Except.noConfusion hres
    by_cases hl : layersOK b = true
    · cases hval : validateStats (disaggregated b) (qlist b).length b.stats false 0 with
      | error e =>
        rw [CPP_stats_eq_of_valerr b part hmc hl hval] at hres
        exact Except.noConfusion hres
      | ok p =>
        rw [CPP_stats_eq_of_valok b part hmc hl hval] at hres
        have hres2 : assembleRows (qlist b) (runWindows b part).2 b.stats
            (List.range (nresults b)) = .ok m := hres
        have hm := assembleRows_ok_eq (qlist b) (runWindows b part).2 b.stats
          (List.range (nresults b)) m hres2
        have hrw := runWindows_of_disjoint b part hdisj
        rcases assembleRows_ok_sup (qlist b) (runWindows b part).2 b.stats
          (List.range (nresults b)) m hres2 with hnil | hsup
        · rw [hnil] at hm
          rw [hnil]
          subst hm
          rfl
        · subst hm
          rw [hrw]
          refine congrArg Except.ok (List.map_congr_left ?_)
          intro j _
          exact flatMap_congr b.stats
            (fun s hs => statColumns_init (qlist b) (hsup s hs))
    · unfold CPP_stats at hres
      rw [if_neg hmc, if_neg hl] at hres
      exact Except.noConfusion hres

/-- A request over a bounding box disjoint from the raster extent. -/
def base5 : StatsBase :=
  { baseNoW with bbox := ⟨10, 10, 11, 11⟩, stats := ["count", "mean", "variety"] }

/-- Witness for C5 at a concrete disjoint geometry. -/
theorem zero_coverage_degeneracy_witness :
    (CPP_stats base5 [[0]]).2 = .ok ((List.range (nresults base5)).map (fun _ =>
      base5.stats.flatMap (fun s =>
        if s = "count" ∨ s = "variety" then [some 0]
        else if s = "quantile" then (qlist base5).map (fun _ => none)
        else [none]))) :=
  zero_coverage_degeneracy base5 [[0]] (by decide) (by decide)

/-- Claim C10: with a bounding box disjoint from the (reconciled, uncropped)
grid extent and a validating request over catalogue statistics, `CPP_stats`
invokes no external collaborator (empty event trace: no coverage computation,
no value or weight read) and still returns a matrix of
`max(nlayers, nweights)` rows built from the untouched accumulators. -/
theorem disjoint_bbox_frame_effect (b : StatsBase) (part : List (List ℕ))
    (hdisj : b.bbox.intersects (commonGrid b).extent = false)
    (hmc : 1 ≤ b.maxCells) (hl : layersOK b = true)
    (hval : ∃ p : Bool × ℕ,
      validateStats (disaggregated b) (qlist b).length b.stats false 0 = .ok p)
    (hsup : ∀ s ∈ b.stats, s ∈ supportedStats) :
    (CPP_stats b part).1 = [] ∧
    (CPP_stats b part).2.map List.length = .ok (nresults b) := by
  obtain ⟨p, hvp⟩ := hval
  have hmc2 : ¬ b.maxCells < 1 := by omega
  rw [CPP_stats_eq_of_valok b part hmc2 hl hvp]
  have hrw := runWindows_of_disjoint b part hdisj
  constructor
  · show (runWindows b part).1 = []
    rw [hrw]
  · obtain ⟨m, hm⟩ := assembleRows_ok_of_supported (qlist b) (runWindows b part).2
      b.stats hsup (List.range (nresults b))
    show (assembleRows (qlist b) (runWindows b part).2 b.stats
      (List.range (nresults b))).map List.length = _
    rw [hm]
    show Except.ok m.length = _
    rw [(assembleRows_ok_shape (qlist b) (runWindows b part).2 b.stats
      (List.range (nresults b)) m hm).1, List.length_range]

/-- A disjoint-bbox request for `sum` and `min`. -/
def base10 : StatsBase :=
  { baseNoW with bbox := ⟨5, 5, 6, 6⟩, stats := ["sum", "min"] }

/-- Witness for C10 at a concrete disjoint geometry. -/
theorem disjoint_bbox_frame_effect_witness :
    (CPP_stats base10 [[0]]).1 = [] ∧
    (CPP_stats base10 [[0]]).2.map List.length = .ok (nresults base10) :=
  disjoint_bbox_frame_effect base10 [[0]] (by decide) (by decide) (by decide)
    ⟨(false, 2), by decide⟩ (by decide)

/-- Claim C6: when exactly one of the value/weight rasters has more than one
layer and the other exactly one, the single layer is recycled against every
layer of the other side, and the statistics equal those obtained by
explicitly duplicating the single layer to the other side's layer count and
pairing by index. -/
theorem single_layer_broadcast_equivalence (rast w : RastSrc) (bbox : Box)
    (cov : ℕ → ℚ) (stats : List String) (mc : ℤ) (qnt : Option (List ℚ))
    (part : List (List ℕ)) :
    (w.nlayers = 1 → 1 < rast.nlayers →
      (CPP_stats ⟨rast, some w, bbox, cov, stats, mc, qnt⟩ part).2 =
        (CPP_stats ⟨rast, some ⟨w.grid, rast.nlayers, fun _ => w.vals 0⟩,
          bbox, cov, stats, mc, qnt⟩ part).2) ∧
    (rast.nlayers = 1 → 1 < w.nlayers →
      (CPP_stats ⟨rast, some w, bbox, cov, stats, mc, qnt⟩ part).2 =
        (CPP_stats ⟨⟨rast.grid, w.nlayers, fun _ => rast.vals 0⟩, some w,
          bbox, cov, stats, mc, qnt⟩ part).2) := by
  constructor
  · intro h1 hn
    set b1 : StatsBase := ⟨rast, some w, bbox, cov, stats, mc, qnt⟩ with hb1
    set b2 : StatsBase := ⟨rast, some ⟨w.grid, rast.nlayers, fun _ => w.vals 0⟩,
      bbox, cov, stats, mc, qnt⟩ with hb2
    have hl1 : layersOK b1 = true := by
      simp [layersOK, hb1, h1]
    have hl2 : layersOK b2 = true := by
      simp [layersOK, hb2]
    have hnr : nresults b1 = nresults b2 := by
      show max rast.nlayers w.nlayers = max rast.nlayers rast.nlayers
      rw [h1, Nat.max_self, Nat.max_eq_left (le_of_lt hn)]
    have hrf : ∀ i, rowFns b1 i = rowFns b2 i := by
      intro i
      have hlt : w.nlayers < rast.nlayers := by omega
      show (if w.nlayers < rast.nlayers then (rast.vals i, w.vals 0)
          else if rast.nlayers < w.nlayers then (rast.vals 0, w.vals i)
          else (rast.vals i, w.vals i)) =
        (if rast.nlayers < rast.nlayers then (rast.vals i, w.vals 0)
          else if rast.nlayers < rast.nlayers then (rast.vals 0, w.vals 0)
          else (rast.vals i, w.vals 0))
      rw [if_pos hlt, if_neg (lt_irrefl rast.nlayers), if_neg (lt_irrefl rast.nlayers)]
    have hacc : (runWindows b1 part).2 = (runWindows b2 part).2 := by
      cases hI : b1.bbox.intersects (commonGrid b1).extent with
      | false =>
        rw [runWindows_of_disjoint b1 part hI, runWindows_of_disjoint b2 part hI]
      | true =>
        rw [runWindows_snd_eq b1 part hI, runWindows_snd_eq b2 part hI]
        funext i
        rw [hrf i]
    by_cases hmc : b1.maxCells < 1
    · unfold CPP_stats
      rw [if_pos hmc, if_pos hmc]
    · cases hval : validateStats (disaggregated b1) (qlist b1).length b1.stats false 0 with
      | error e =>
        rw [CPP_stats_eq_of_valerr b1 part hmc hl1 hval,
          CPP_stats_eq_of_valerr b2 part hmc hl2 hval]
      | ok p =>
        rw [CPP_stats_eq_of_valok b1 part hmc hl1 hval,
          CPP_stats_eq_of_valok b2 part hmc hl2 hval]
        show assembleRows (qlist b1) (runWindows b1 part).2 b1.stats
            (List.range (nresults b1)) =
          assembleRows (qlist b2) (runWindows b2 part).2 b2.stats
            (List.range (nresults b2))
        rw [hacc, hnr]
        rfl
  · intro h1 hn
    set b1 : StatsBase := ⟨rast, some w, bbox, cov, stats, mc, qnt⟩ with hb1
    set b2 : StatsBase := ⟨⟨rast.grid, w.nlayers, fun _ => rast.vals 0⟩, some w,
      bbox, cov, stats, mc, qnt⟩ with hb2
    have hl1 : layersOK b1 = true := by
      simp [layersOK, hb1, h1]
    have hl2 : layersOK b2 = true := by
      simp [layersOK, hb2]
    have hnr : nresults b1 = nresults b2 := by
      show max rast.nlayers w.nlayers = max w.nlayers w.nlayers
      rw [h1, Nat.max_self, Nat.max_eq_right (le_of_lt hn)]
    have hrf : ∀ i, rowFns b1 i = rowFns b2 i := by
      intro i
      have hlt : rast.nlayers < w.nlayers := by omega
      show (if w.nlayers < rast.nlayers then (rast.vals i, w.vals 0)
          else if rast.nlayers < w.nlayers then (rast.vals 0, w.vals i)
          else (rast.vals i, w.vals i)) =
        (if w.nlayers < w.nlayers then (rast.vals 0, w.vals 0)
          else if w.nlayers < w.nlayers then (rast.vals 0, w.vals i)
          else (rast.vals 0, w.vals i))
      rw [if_neg (by omega : ¬ w.nlayers < rast.nlayers), if_pos hlt,
        if_neg (lt_irrefl w.nlayers), if_neg (lt_irrefl w.nlayers)]
    have hacc : (runWindows b1 part).2 = (runWindows b2 part).2 := by
      cases hI : b1.bbox.intersects (commonGrid b1).extent with
      | false =>
        rw [runWindows_of_disjoint b1 part hI, runWindows_of_disjoint b2 part hI]
      | true =>
        rw [runWindows_snd_eq b1 part hI, runWindows_snd_eq b2 part hI]
        funext i
        rw [hrf i]
    by_cases hmc : b1.maxCells < 1
    · unfold CPP_stats
      rw [if_pos hmc, if_pos hmc]
    · cases hval : validateStats (disaggregated b1) (qlist b1).length b1.stats false 0 with
      | error e =>
        rw [CPP_stats_eq_of_valerr b1 part hmc hl1 hval,
          CPP_stats_eq_of_valerr b2 part hmc hl2 hval]
      | ok p =>
        rw [CPP_stats_eq_of_valok b1 part hmc hl1 hval,
          CPP_stats_eq_of_valok b2 part hmc hl2 hval]
        show assembleRows (qlist b1) (runWindows b1 part).2 b1.stats
            (List.range (nresults b1)) =
          assembleRows (qlist b2) (runWindows b2 part).2 b2.stats
            (List.range (nresults b2))
        rw [hacc, hnr]
        rfl

/-- Witness for C6: a 2-layer value raster against a 1-layer weight raster
(and the transposed configuration) equals the explicitly duplicated
pairing. -/
theorem single_layer_broadcast_equivalence_witness :
    ((CPP_stats ⟨valueSrc2, some weightFine, boxUnit, fun _ => 1,
        ["weighted_mean"], 4, none⟩ [[0]]).2 =
      (CPP_stats ⟨valueSrc2, some ⟨weightFine.grid, valueSrc2.nlayers,
        fun _ => weightFine.vals 0⟩, boxUnit, fun _ => 1,
        ["weighted_mean"], 4, none⟩ [[0]]).2) ∧
    ((CPP_stats ⟨weightFine, some valueSrc2, boxUnit, fun _ => 1,
        ["weighted_mean"], 4, none⟩ [[0]]).2 =
      (CPP_stats ⟨⟨weightFine.grid, valueSrc2.nlayers, fun _ => weightFine.vals 0⟩,
        some valueSrc2, boxUnit, fun _ => 1,
        ["weighted_mean"], 4, none⟩ [[0]]).2) :=
  ⟨(single_layer_broadcast_equivalence valueSrc2 weightFine boxUnit (fun _ => 1)
      ["weighted_mean"] 4 none [[0]]).1 (by decide) (by decide),
   (single_layer_broadcast_equivalence weightFine valueSrc2 boxUnit (fun _ => 1)
      ["weighted_mean"] 4 none [[0]]).2 (by decide) (by decide)⟩

/-- Classifier for the `Unknown stat` stop of the dispatch chain. -/
def isUnknownStatError : Except RErr (List (List (Option ℚ))) → Bool
  | .error (.unknownStat _) => true
  | _ => false

/-- A request containing the unknown statistic name "frobnicate". -/
def base1 : StatsBase := { baseNoW with stats := ["mean", "frobnicate"] }

/-- Counterexample to C1 as stated: the unknown statistic name "frobnicate"
is not rejected at request-validation time — the collaborator trace is
non-empty (a window was fully processed, with coverage computation and a
value read) before the `Unknown stat` stop is raised during result
assembly. -/
theorem unknown_stat_counterexample :
    (CPP_stats base1 [[0, 1]]).1 ≠ [] ∧
    (CPP_stats base1 [[0, 1]]).2 = .error (.unknownStat "frobnicate") := by
  constructor
  · decide
  · rfl

/-- Claim C1 (amended): a request containing a statistic name outside the
catalogue passes request validation; the window phase runs in full (the
collaborator trace is exactly that of the window loop), and the unknown name
is only discovered during result assembly, where the computation stops with
an `Unknown stat` error (provided at least one result row exists). -/
theorem unknown_stat_after_windows (b : StatsBase) (part : List (List ℕ))
    (s : String) (hs : s ∈ b.stats) (hunk : s ∉ supportedStats)
    (hmc : 1 ≤ b.maxCells) (hl : layersOK b = true)
    (hval : ∃ p : Bool × ℕ,
      validateStats (disaggregated b) (qlist b).length b.stats false 0 = .ok p)
    (hn : 0 < nresults b) :
    (CPP_stats b part).1 = (runWindows b part).1 ∧
    isUnknownStatError (CPP_stats b part).2 = true := by
  obtain ⟨p, hvp⟩ := hval
  rw [CPP_stats_eq_of_valok b part (by omega) hl hvp]
  refine ⟨rfl, ?_⟩
  obtain ⟨j, rest, hrange⟩ : ∃ j rest, List.range (nresults b) = j :: rest := by
    cases hr : List.range (nresults b) with
    | nil =>
      rw [List.range_eq_nil] at hr
      omega
    | cons a t => exact ⟨a, t, rfl⟩
  show isUnknownStatError (assembleRows (qlist b) (runWindows b part).2 b.stats
    (List.range (nresults b))) = true
  rw [hrange]
  obtain ⟨t, ht⟩ := assembleRow_error_of_unknown (qlist b) ((runWindows b part).2 j)
    b.stats s hs hunk
  unfold assembleRows
  rw [ht]
  rfl

/-- Witness for the amended C1 at the concrete "frobnicate" request. -/
theorem unknown_stat_after_windows_witness :
    (CPP_stats base1 [[0, 1]]).1 = (runWindows base1 [[0, 1]]).1 ∧
    isUnknownStatError (CPP_stats base1 [[0, 1]]).2 = true :=
  unknown_stat_after_windows base1 [[0, 1]] "frobnicate" (by decide) (by decide)
    (by decide) (by decide) ⟨(false, 2), by decide⟩ (by decide)

/-- A weight raster input of `CPP_exact_extract`: its grid, per-layer column
names and per-layer cell vectors over the cropped common grid (the output of
`read_box` plus the `RasterView` resampling of source lines 135-147,
modelled as the resulting common-grid-aligned vector). -/
structure WeightsInput where
  grid : Grid
  names : List String
  vecs : ℕ → List ℚ

/-- The inputs of `CPP_exact_extract` (source lines 46-181), with the
collaborators (coverage computation, `read_box` + `RasterView` resampling,
coordinate and cell-number extraction) modelled as vectors over the cells of
the cropped common grid, in cell order. -/
structure ExtractInput where
  grid : Grid
  srcNames : List String
  srcVecs : ℕ → List ℚ
  weights : Option WeightsInput
  includeCols : Option (List (String × List ℚ))
  include_xy : Bool
  include_cell : Bool
  coverage : List ℚ
  xs : List ℚ
  ys : List ℚ
  wxs : List ℚ
  wys : List ℚ
  cellNums : List ℚ

/-- Named assignment `cols[name] = v` on an `Rcpp::List`: an existing name
has its column replaced in place, a fresh name appends the column at the
end. -/
def setCol (cols : List (String × List ℚ)) (name : String) (v : List ℚ) :
    List (String × List ℚ) :=
  if name ∈ cols.map Prod.fst then
    cols.map (fun p => if p.1 = name then (name, v) else p)
  else cols ++ [(name, v)]

/-- R logical subsetting `v[covered]`. -/
def maskFilter (mask : List Bool) (v : List ℚ) : List ℚ :=
  ((mask.zip v).filter (fun p => p.1)).map Prod.snd

/-- The covered-cell mask of source line 101: coverage fraction > 0. -/
def extractCovered (inp : ExtractInput) : List Bool :=
  inp.coverage.map (fun c => decide (0 < c))

/-- Pass-through columns (source lines 103-111), stored unfiltered. -/
def extractIncludeCols (inp : ExtractInput) : List (String × List ℚ) :=
  match inp.includeCols with
  | none => []
  | some ic => ic.foldl (fun cs nv => setCol cs nv.1 nv.2) []

/-- Value-layer columns (source lines 113-133): one column per layer, subset
to covered cells. -/
def extractValueCols (inp : ExtractInput) (cols : List (String × List ℚ)) :
    List (String × List ℚ) :=
  inp.srcNames.enum.foldl
    (fun cs p => setCol cs p.2 (maskFilter (extractCovered inp) (inp.srcVecs p.1))) cols

/-- Weight-layer columns (source lines 135-160): one column per layer, subset
to covered cells; a name already present is renamed by appending ".1". -/
def extractWeightCols (inp : ExtractInput) (cols : List (String × List ℚ)) :
    List (String × List ℚ) :=
  match inp.weights with
  | none => cols
  | some w => w.names.enum.foldl
      (fun cs p =>
        let nm := if p.2 ∈ cs.map Prod.fst then p.2 ++ ".1" else p.2
        setCol cs nm (maskFilter (extractCovered inp) (w.vecs p.1))) cols

/-- Optional x/y columns (source lines 162-172), taken from the weight raster
when it is present and strictly finer on either axis. -/
def extractXYCols (inp : ExtractInput) (cols : List (String × List ℚ)) :
    List (String × List ℚ) :=
  if inp.include_xy then
    match inp.weights with
    | some w =>
      if 0 < w.names.length ∧ (w.grid.dx < inp.grid.dx ∨ w.grid.dy < inp.grid.dy) then
        setCol (setCol cols "x" (maskFilter (extractCovered inp) inp.wxs)) "y"
          (maskFilter (extractCovered inp) inp.wys)
      else
        setCol (setCol cols "x" (maskFilter (extractCovered inp) inp.xs)) "y"
          (maskFilter (extractCovered inp) inp.ys)
    | none =>
      setCol (setCol cols "x" (maskFilter (extractCovered inp) inp.xs)) "y"
        (maskFilter (extractCovered inp) inp.ys)
  else cols

/-- Optional cell-number column (source lines 174-176). -/
def extractCellCol (inp : ExtractInput) (cols : List (String × List ℚ)) :
    List (String × List ℚ) :=
  if inp.include_cell then
    setCol cols "cell" (maskFilter (extractCovered inp) inp.cellNums)
  else cols

/-- Shallow embedding of `CPP_exact_extract` (source lines 46-181): build the
named column list of the extraction table, ending with the coverage-fraction
column (source line 178). -/
def CPP_exact_extract (inp : ExtractInput) : List (String × List ℚ) :=
  setCol
    (extractCellCol inp (extractXYCols inp (extractWeightCols inp
      (extractValueCols inp (extractIncludeCols inp)))))
    "coverage_fraction" (maskFilter (extractCovered inp) inp.coverage)

/-- The ".1" renaming of weight columns whose name is already taken (source
lines 151-158), walked left to right against the growing column list. -/
def adjustWeightNames (existing : List String) : List String → List String
  | [] => []
  | n :: rest =>
    let n2 := if n ∈ existing then n ++ ".1" else n
    n2 :: adjustWeightNames (existing ++ [n2]) rest

/-- The pass-through column names of a request. -/
def includeNames (inp : ExtractInput) : List String :=
  match inp.includeCols with
  | none => []
  | some ic => ic.map Prod.fst

/-- The expected column-name layout of the extraction table: pass-through
columns, value layers, weight layers (renamed on collision), optional x/y,
optional cell index, and the coverage fraction last. -/
def extractExpectedNames (inp : ExtractInput) : List String :=
  includeNames inp ++ inp.srcNames ++
    (match inp.weights with
      | none => []
      | some w => adjustWeightNames (includeNames inp ++ inp.srcNames) w.names) ++
    (if inp.include_xy then ["x", "y"] else []) ++
    (if inp.include_cell then ["cell"] else []) ++ ["coverage_fraction"]

/-- Assignment of a fresh name appends the column at the end. -/
theorem setCol_fresh (cols : List (String × List ℚ)) (name : String) (v : List ℚ)
    (h : name ∉ cols.map Prod.fst) : setCol cols name v = cols ++ [(name, v)] := by
  unfold setCol
  rw [if_neg h]

/-- Folding fresh, pairwise-distinct named columns appends them in order. -/
theorem foldl_setCol_pairs :
    ∀ (l : List (String × List ℚ)) (cs : List (String × List ℚ)),
      (cs.map Prod.fst ++ l.map Prod.fst).Nodup →
      l.foldl (fun cs p => setCol cs p.1 p.2) cs = cs ++ l := by
  intro l
  induction l with
  | nil => intro cs _; simp
  | cons p rest ih =>
    intro cs hnd
    have hd := List.nodup_append.mp (by simpa using hnd)
    have hf : p.1 ∉ cs.map Prod.fst := by
      intro hmem
      exact hd.2.2 hmem (List.mem_cons_self _ _)
    simp only [List.foldl_cons]
    rw [setCol_fresh cs p.1 p.2 hf]
    have hnd2 : ((cs ++ [(p.1, p.2)]).map Prod.fst ++ rest.map Prod.fst).Nodup := by
      simpa [List.append_assoc] using hnd
    rw [ih (cs ++ [(p.1, p.2)]) hnd2]
    simp [List.append_assoc]

/-- The renamed weight names have the same count as the original names. -/
theorem adjustWeightNames_length :
    ∀ (l existing : List String), (adjustWeightNames existing l).length = l.length := by
  intro l
  induction l with
  | nil => intro e; rfl
  | cons n rest ih =>
    intro e
    unfold adjustWeightNames
    simp [ih]

/-- Folding weight columns with the ".1" renaming appends the adjusted names
in order, provided the adjusted names stay fresh. -/
theorem foldl_setCol_weights (cov : List Bool) (vecs : ℕ → List ℚ) :
    ∀ (l : List (ℕ × String)) (cs : List (String × List ℚ)),
      (cs.map Prod.fst ++ adjustWeightNames (cs.map Prod.fst) (l.map Prod.snd)).Nodup →
      l.foldl (fun cs p =>
          let nm := if p.2 ∈ cs.map Prod.fst then p.2 ++ ".1" else p.2
          setCol cs nm (maskFilter cov (vecs p.1))) cs =
        cs ++ (adjustWeightNames (cs.map Prod.fst) (l.map Prod.snd)).zip
          (l.map (fun p => maskFilter cov (vecs p.1))) := by
  intro l
  induction l with
  | nil => intro cs _; simp [adjustWeightNames]
  | cons p rest ih =>
    intro cs hnd
    simp only [List.map_cons, adjustWeightNames] at hnd
    have hd := List.nodup_append.mp hnd
    have hf : (if p.2 ∈ cs.map Prod.fst then p.2 ++ ".1" else p.2) ∉ cs.map Prod.fst := by
      intro hmem
      exact hd.2.2 hmem (List.mem_cons_self _ _)
    simp only [List.foldl_cons]
    rw [setCol_fresh cs _ _ hf]
    have hkey : (cs ++ [((if p.2 ∈ cs.map Prod.fst then p.2 ++ ".1" else p.2),
        maskFilter cov (vecs p.1))]).map Prod.fst =
        cs.map Prod.fst ++ [if p.2 ∈ cs.map Prod.fst then p.2 ++ ".1" else p.2] := by
      simp
    have hnd2 : ((cs ++ [((if p.2 ∈ cs.map Prod.fst then p.2 ++ ".1" else p.2),
        maskFilter cov (vecs p.1))]).map Prod.fst ++
        adjustWeightNames ((cs ++ [((if p.2 ∈ cs.map Prod.fst then p.2 ++ ".1" else p.2),
          maskFilter cov (vecs p.1))]).map Prod.fst) (rest.map Prod.snd)).Nodup := by
      rw [hkey]
      simpa [List.append_assoc] using hnd
    rw [ih _ hnd2, hkey]
    simp only [List.map_cons, adjustWeightNames, List.zip_cons_cons, List.append_assoc,
      List.singleton_append, List.cons_append, List.nil_append]

/-- The pass-through columns as a plain association list. -/
def icList (inp : ExtractInput) : List (String × List ℚ) :=
  match inp.includeCols with
  | none => []
  | some ic => ic

/-- Names of the pass-through columns. -/
theorem icList_names (inp : ExtractInput) :
    (icList inp).map Prod.fst = includeNames inp := by
  unfold icList includeNames
  cases inp.includeCols <;> rfl

/-- With pairwise-distinct pass-through names, the pass-through stage stores
the supplied columns as given. -/
theorem extractIncludeCols_eq (inp : ExtractInput) (h : (includeNames inp).Nodup) :
    extractIncludeCols inp = icList inp := by
  unfold extractIncludeCols icList
  cases hic : inp.includeCols with
  | none => rfl
  | some ic =>
    have h2 : (([] : List (String × List ℚ)).map Prod.fst ++ ic.map Prod.fst).Nodup := by
      simpa [includeNames, hic] using h
    simpa using foldl_setCol_pairs ic [] h2

/-- The value-layer columns: one per layer name, covered cells only. -/
def srcPairs (inp : ExtractInput) : List (String × List ℚ) :=
  inp.srcNames.enum.map
    (fun q => (q.2, maskFilter (extractCovered inp) (inp.srcVecs q.1)))

/-- Names of the value-layer columns. -/
theorem srcPairs_names (inp : ExtractInput) :
    (srcPairs inp).map Prod.fst = inp.srcNames := by
  unfold srcPairs
  rw [List.map_map]
  exact List.enum_map_snd inp.srcNames

/-- With fresh, pairwise-distinct layer names the value stage appends its
columns in layer order. -/
theorem extractValueCols_eq (inp : ExtractInput) (cols : List (String × List ℚ))
    (h : (cols.map Prod.fst ++ inp.srcNames).Nodup) :
    extractValueCols inp cols = cols ++ srcPairs inp := by
  unfold extractValueCols
  have hfold : inp.srcNames.enum.foldl
      (fun cs p => setCol cs p.2 (maskFilter (extractCovered inp) (inp.srcVecs p.1))) cols
      = (srcPairs inp).foldl (fun cs q => setCol cs q.1 q.2) cols := by
    unfold srcPairs
    rw [List.foldl_map]
  rw [hfold]
  refine foldl_setCol_pairs (srcPairs inp) cols ?_
  rw [srcPairs_names]
  exact h

/-- The weight-layer columns: adjusted names paired with the covered-cell
weight vectors. -/
def wPairs (inp : ExtractInput) : List (String × List ℚ) :=
  match inp.weights with
  | none => []
  | some w => (adjustWeightNames (includeNames inp ++ inp.srcNames) w.names).zip
      (w.names.enum.map (fun q => maskFilter (extractCovered inp) (w.vecs q.1)))

/-- Names of the weight-layer columns. -/
theorem wPairs_names (inp : ExtractInput) :
    (wPairs inp).map Prod.fst =
      (match inp.weights with
        | none => []
        | some w => adjustWeightNames (includeNames inp ++ inp.srcNames) w.names) := by
  unfold wPairs
  cases hw : inp.weights with
  | none => rfl
  | some w =>
    refine List.map_fst_zip _ _ ?_
    simp [adjustWeightNames_length]

/-- With the adjusted weight names fresh and pairwise distinct, the weight
stage appends its columns in layer order under the ".1" renaming. -/
theorem extractWeightCols_eq (inp : ExtractInput) (cols : List (String × List ℚ))
    (hcols : cols.map Prod.fst = includeNames inp ++ inp.srcNames)
    (h : ((includeNames inp ++ inp.srcNames) ++
        (match inp.weights with
          | none => []
          | some w => adjustWeightNames (includeNames inp ++ inp.srcNames) w.names)).Nodup) :
    extractWeightCols inp cols = cols ++ wPairs inp := by
  unfold extractWeightCols wPairs
  cases hw : inp.weights with
  | none => simp
  | some w =>
    rw [hw] at h
    dsimp only at h ⊢
    have h2 : (cols.map Prod.fst ++
        adjustWeightNames (cols.map Prod.fst) (w.names.enum.map Prod.snd)).Nodup := by
      rw [List.enum_map_snd, hcols]
      exact h
    have h3 := foldl_setCol_weights (extractCovered inp) w.vecs w.names.enum cols h2
    rw [h3, List.enum_map_snd, hcols]

/-- The optional x/y columns. -/
def xyPairs (inp : ExtractInput) : List (String × List ℚ) :=
  if inp.include_xy then
    match inp.weights with
    | some w =>
      if 0 < w.names.length ∧ (w.grid.dx < inp.grid.dx ∨ w.grid.dy < inp.grid.dy) then
        [("x", maskFilter (extractCovered inp) inp.wxs),
         ("y", maskFilter (extractCovered inp) inp.wys)]
      else
        [("x", maskFilter (extractCovered inp) inp.xs),
         ("y", maskFilter (extractCovered inp) inp.ys)]
    | none =>
      [("x", maskFilter (extractCovered inp) inp.xs),
       ("y", maskFilter (extractCovered inp) inp.ys)]
  else []

/-- Names of the optional x/y columns. -/
theorem xyPairs_names (inp : ExtractInput) :
    (xyPairs inp).map Prod.fst = if inp.include_xy then ["x", "y"] else [] := by
  unfold xyPairs
  by_cases h : inp.include_xy = true
  · rw [if_pos h, if_pos h]
    cases inp.weights with
    | none => rfl
    | some w =>
      dsimp only
      split <;> rfl
  · rw [if_neg h, if_neg h]
    rfl

/-- With "x" and "y" fresh, the coordinate stage appends its columns. -/
theorem extractXYCols_eq (inp : ExtractInput) (cols : List (String × List ℚ))
    (hx : inp.include_xy = true → "x" ∉ cols.map Prod.fst)
    (hy : inp.include_xy = true → "y" ∉ cols.map Prod.fst) :
    extractXYCols inp cols = cols ++ xyPairs inp := by
  unfold extractXYCols xyPairs
  by_cases h : inp.include_xy = true
  · rw [if_pos h, if_pos h]
    have hy2 : ∀ v : List ℚ, "y" ∉ (cols ++ [("x", v)]).map Prod.fst := by
      intro v hmem
      rw [List.map_append] at hmem
      rcases List.mem_append.mp hmem with h1 | h1
      · exact hy h h1
      · simp at h1
    have hstep : ∀ vx vy : List ℚ,
        setCol (setCol cols "x" vx) "y" vy = cols ++ [("x", vx), ("y", vy)] := by
      intro vx vy
      rw [setCol_fresh cols "x" vx (hx h), setCol_fresh _ "y" vy (hy2 vx),
        List.append_assoc]
      rfl
    cases inp.weights with
    | none => exact hstep _ _
    | some w =>
      dsimp only
      split
      · exact hstep _ _
      · exact hstep _ _
  · rw [if_neg h, if_neg h]
    simp

/-- The optional cell-number column. -/
def cellPairs (inp : ExtractInput) : List (String × List ℚ) :=
  if inp.include_cell then
    [("cell", maskFilter (extractCovered inp) inp.cellNums)]
  else []

/-- Names of the optional cell-number column. -/
theorem cellPairs_names (inp : ExtractInput) :
    (cellPairs inp).map Prod.fst = if inp.include_cell then ["cell"] else [] := by
  unfold cellPairs
  by_cases h : inp.include_cell = true
  · rw [if_pos h, if_pos h]
    rfl
  · rw [if_neg h, if_neg h]
    rfl

/-- With "cell" fresh, the cell-number stage appends its column. -/
theorem extractCellCol_eq (inp : ExtractInput) (cols : List (String × List ℚ))
    (hc : inp.include_cell = true → "cell" ∉ cols.map Prod.fst) :
    extractCellCol inp cols = cols ++ cellPairs inp := by
  unfold extractCellCol cellPairs
  by_cases h : inp.include_cell = true
  · rw [if_pos h, if_pos h, setCol_fresh cols _ _ (hc h)]
  · rw [if_neg h, if_neg h]
    simp

/-- Subsetting a full-length vector by the covered mask yields one entry per
covered cell. -/
theorem maskFilter_length :
    ∀ (coverage v : List ℚ), v.length = coverage.length →
      (maskFilter (coverage.map (fun c => decide (0 < c))) v).length =
        (coverage.filter (fun c => decide (0 < c))).length := by
  intro coverage
  induction coverage with
  | nil =>
    intro v hv
    have hv0 : v = [] := by
      rw [← List.length_eq_zero]
      simpa using hv
    subst hv0
    rfl
  | cons c cs ih =>
    intro v hv
    cases v with
    | nil => simp at hv
    | cons x xs =>
      have hx : xs.length = cs.length := by simpa using hv
      by_cases h : 0 < c <;>
        simpa [maskFilter, List.filter_cons, h] using ih xs hx

/-- Claim C7: the extraction table has one row per covered cell (coverage
fraction > 0) of the cropped common grid, and its columns appear in order:
pass-through columns, one per value layer, one per weight layer, optional
x/y, optional cell index, and the coverage fraction last; a weight column
whose name is already placed is renamed with a single ".1" suffix. -/
theorem extraction_table_columns (inp : ExtractInput)
    (hnd : (extractExpectedNames inp).Nodup)
    (hsrc : ∀ i, (inp.srcVecs i).length = inp.coverage.length)
    (hwv : ∀ w, inp.weights = some w → ∀ i, (w.vecs i).length = inp.coverage.length)
    (hxs : inp.xs.length = inp.coverage.length)
    (hys : inp.ys.length = inp.coverage.length)
    (hwxs : inp.wxs.length = inp.coverage.length)
    (hwys : inp.wys.length = inp.coverage.length)
    (hcn : inp.cellNums.length = inp.coverage.length) :
    (CPP_exact_extract inp).map Prod.fst = extractExpectedNames inp ∧
    (CPP_exact_extract inp).getLast? = some ("coverage_fraction",
      maskFilter (extractCovered inp) inp.coverage) ∧
    ∀ p ∈ CPP_exact_extract inp, p.1 ∉ includeNames inp →
      p.2.length = (inp.coverage.filter (fun c => decide (0 < c))).length := by
  have hndE := hnd
  unfold extractExpectedNames at hndE
  obtain ⟨hnd0, hnd_cf, hdj5⟩ := List.nodup_append.mp hndE
  obtain ⟨hnd01, hnd_cell, hdj4⟩ := List.nodup_append.mp hnd0
  obtain ⟨hnd02, hnd_xy, hdj3⟩ := List.nodup_append.mp hnd01
  obtain ⟨hnd03, hnd_w, hdj2⟩ := List.nodup_append.mp hnd02
  obtain ⟨hnd_ic, hnd_src, hdj1⟩ := List.nodup_append.mp hnd03
  have e0 := extractIncludeCols_eq inp hnd_ic
  have pre1 : ((icList inp).map Prod.fst ++ inp.srcNames).Nodup := by
    rw [icList_names]
    exact hnd03
  have e1 := extractValueCols_eq inp (icList inp) pre1
  have names1 : (icList inp ++ srcPairs inp).map Prod.fst
      = includeNames inp ++ inp.srcNames := by
    rw [List.map_append, icList_names, srcPairs_names]
  have e2 := extractWeightCols_eq inp (icList inp ++ srcPairs inp) names1 hnd02
  have names2 : ((icList inp ++ srcPairs inp) ++ wPairs inp).map Prod.fst
      = (includeNames inp ++ inp.srcNames) ++
        (match inp.weights with
          | none => []
          | some w => adjustWeightNames (includeNames inp ++ inp.srcNames) w.names) := by
    rw [List.map_append, names1, wPairs_names]
  have hfreshXY : ∀ s : String, s ∈ (if inp.include_xy then ["x", "y"] else []) →
      s ∉ ((icList inp ++ srcPairs inp) ++ wPairs inp).map Prod.fst := by
    intro s hs hmem
    rw [names2] at hmem
    exact hdj3 hmem hs
  have e3 := extractXYCols_eq inp ((icList inp ++ srcPairs inp) ++ wPairs inp)
    (fun hxy => hfreshXY "x" (by rw [if_pos hxy]; simp))
    (fun hxy => hfreshXY "y" (by rw [if_pos hxy]; simp))
  have names3 : (((icList inp ++ srcPairs inp) ++ wPairs inp) ++ xyPairs inp).map Prod.fst
      = ((includeNames inp ++ inp.srcNames) ++
          (match inp.weights with
            | none => []
            | some w => adjustWeightNames (includeNames inp ++ inp.srcNames) w.names)) ++
        (if inp.include_xy then ["x", "y"] else []) := by
    rw [List.map_append, names2, xyPairs_names]
  have hfreshCell : inp.include_cell = true →
      "cell" ∉ ((((icList inp ++ srcPairs inp) ++ wPairs inp) ++ xyPairs inp)).map Prod.fst := by
    intro hc hmem
    have hcC : "cell" ∈ (if inp.include_cell then ["cell"] else []) := by
      rw [if_pos hc]
      simp
    rw [names3] at hmem
    exact hdj4 hmem hcC
  have e4 := extractCellCol_eq inp
    (((icList inp ++ srcPairs inp) ++ wPairs inp) ++ xyPairs inp) hfreshCell
  have names4 : (((((icList inp ++ srcPairs inp) ++ wPairs inp) ++ xyPairs inp)
        ++ cellPairs inp)).map Prod.fst
      = (((includeNames inp ++ inp.srcNames) ++
          (match inp.weights with
            | none => []
            | some w => adjustWeightNames (includeNames inp ++ inp.srcNames) w.names)) ++
          (if inp.include_xy then ["x", "y"] else [])) ++
        (if inp.include_cell then ["cell"] else []) := by
    rw [List.map_append, names3, cellPairs_names]
  have hfreshCF : "coverage_fraction" ∉
      (((((icList inp ++ srcPairs inp) ++ wPairs inp) ++ xyPairs inp)
        ++ cellPairs inp)).map Prod.fst := by
    intro hmem
    have hcf : "coverage_fraction" ∈ (["coverage_fraction"] : List String) :=
      List.mem_singleton_self _
    rw [names4] at hmem
    exact hdj5 hmem hcf
  have echain : CPP_exact_extract inp =
      (((((icList inp ++ srcPairs inp) ++ wPairs inp) ++ xyPairs inp) ++ cellPairs inp))
        ++ [("coverage_fraction", maskFilter (extractCovered inp) inp.coverage)] := by
    unfold CPP_exact_extract
    rw [e0, e1, e2, e3, e4, setCol_fresh _ _ _ hfreshCF]
  refine ⟨?_, ?_, ?_⟩
  · rw [echain]
    rw [List.map_append, names4]
    unfold extractExpectedNames
    simp [List.append_assoc]
  · rw [echain]
    exact List.getLast?_concat _
  · intro p hp hpn
    rw [echain] at hp
    rcases List.mem_append.mp hp with h1 | hcf
    · rcases List.mem_append.mp h1 with h2 | hcell
      · rcases List.mem_append.mp h2 with h3 | hxy
        · rcases List.mem_append.mp h3 with h4 | hwp
          · rcases List.mem_append.mp h4 with hic | hsp
            · refine absurd ?_ hpn
              rw [← icList_names inp]
              exact List.mem_map_of_mem Prod.fst hic
            · unfold srcPairs at hsp
              obtain ⟨q, hq, rfl⟩ := List.mem_map.mp hsp
              exact maskFilter_length inp.coverage (inp.srcVecs q.1) (hsrc q.1)
          · unfold wPairs at hwp
            cases hw : inp.weights with
            | none => simp only [hw] at hwp; exact absurd hwp (List.not_mem_nil p)
            | some w =>
              simp only [hw] at hwp
              have h5 := (List.of_mem_zip hwp).2
              obtain ⟨q, hq, hqe⟩ := List.mem_map.mp h5
              rw [← hqe]
              exact maskFilter_length inp.coverage (w.vecs q.1) (hwv w hw q.1)
        · unfold xyPairs at hxy
          by_cases hflag : inp.include_xy = true
          · rw [if_pos hflag] at hxy
            have hone : ∀ v : List ℚ, v.length = inp.coverage.length →
                ∀ nm : String, p = (nm, maskFilter (extractCovered inp) v) →
                p.2.length = (inp.coverage.filter (fun c => decide (0 < c))).length := by
              intro v hv nm hpe
              rw [hpe]
              exact maskFilter_length inp.coverage v hv
            cases hw : inp.weights with
            | none =>
              simp only [hw] at hxy
              rcases List.mem_cons.mp hxy with hpe | hxy2
              · exact hone inp.xs hxs "x" hpe
              · rcases List.mem_cons.mp hxy2 with hpe | hxy3
                · exact hone inp.ys hys "y" hpe
                · exact absurd hxy3 (List.not_mem_nil p)
            | some w =>
              simp only [hw] at hxy
              split at hxy
              · rcases List.mem_cons.mp hxy with hpe | hxy2
                · exact hone inp.wxs hwxs "x" hpe
                · rcases List.mem_cons.mp hxy2 with hpe | hxy3
                  · exact hone inp.wys hwys "y" hpe
                  · exact absurd hxy3 (List.not_mem_nil p)
              · rcases List.mem_cons.mp hxy with hpe | hxy2
                · exact hone inp.xs hxs "x" hpe
                · rcases List.mem_cons.mp hxy2 with hpe | hxy3
                  · exact hone inp.ys hys "y" hpe
                  · exact absurd hxy3 (List.not_mem_nil p)
          · rw [if_neg hflag] at hxy
            exact absurd hxy (List.not_mem_nil p)
      · unfold cellPairs at hcell
        by_cases hflag : inp.include_cell = true
        · rw [if_pos hflag] at hcell
          rcases List.mem_cons.mp hcell with hpe | hcell2
          · rw [hpe]
            exact maskFilter_length inp.coverage inp.cellNums hcn
          · exact absurd hcell2 (List.not_mem_nil p)
        · rw [if_neg hflag] at hcell
          exact absurd hcell (List.not_mem_nil p)
    · rcases List.mem_cons.mp hcf with hpe | hcf2
      · rw [hpe]
        exact maskFilter_length inp.coverage inp.coverage rfl
      · exact absurd hcf2 (List.not_mem_nil p)

/-- A concrete extraction request: one value layer named "a", one weight
layer also named "a" (forcing the ".1" rename), cell numbers requested, and
three cells of which two are covered. -/
def inp7 : ExtractInput :=
  { grid := gridUnit
    srcNames := ["a"]
    srcVecs := fun _ => [1, 2, 3]
    weights := some ⟨gridUnit, ["a"], fun _ => [5, 5, 5]⟩
    includeCols := none
    include_xy := false
    include_cell := true
    coverage := [1, 0, 2]
    xs := [0, 0, 0]
    ys := [0, 0, 0]
    wxs := [0, 0, 0]
    wys := [0, 0, 0]
    cellNums := [1, 2, 3] }

/-- Witness for C7: the concrete table has columns
`["a", "a.1", "cell", "coverage_fraction"]` in order, and the renamed weight
column has one row per covered cell. -/
theorem extraction_table_columns_witness :
    (CPP_exact_extract inp7).map Prod.fst = extractExpectedNames inp7 ∧
    (("a.1", [5, 5]) : String × List ℚ).2.length
      = (inp7.coverage.filter (fun c => decide (0 < c))).length := by
  have heval : CPP_exact_extract inp7 =
      [("a", [1, 3]), ("a.1", [5, 5]), ("cell", [1, 3]),
       ("coverage_fraction", [1, 2])] := by rfl
  refine ⟨(extraction_table_columns inp7 (by decide) (fun _ => rfl)
      (fun w hw _ => by cases hw; rfl) rfl rfl rfl rfl rfl).1,
    (extraction_table_columns inp7 (by decide) (fun _ => rfl)
      (fun w hw _ => by cases hw; rfl) rfl rfl rfl rfl rfl).2.2
      ("a.1", [5, 5]) ?_ (by decide)⟩
  rw [heval]
  exact List.Mem.tail _ (List.Mem.head _)

end ExactExtract
